import Mathlib

/-!
Verification of the media conversion pipeline of badgeware-slideshow
(`scripts/convert_media.py`).

The script is embedded shallowly:

* image buffers are `Img` records (size plus a pixel function);
* the filesystem is an association list from structured paths (lists of
  components) to contents; the decodable metadata of a file (format, size,
  frame count, per-frame duration, probe results) is stored in its content,
  which is what `Image.open` / `ffprobe` observe;
* each converter is a pure function from the filesystem to the ordered list
  of filesystem operations (`FsOp`) it performs together with an outcome
  (`done`, or `raised` for an uncaught Python exception); interrupting a run
  mid-conversion corresponds to taking a prefix of the operation list;
* Python floats are modelled as exact rationals, `int(...)` as truncation
  toward zero (`pyInt`);
* the external tools (Pillow resampling, ffprobe, ffmpeg) are modelled by
  data carried in the file contents: Pillow resize by `pilResize` (only its
  output size matters to the spec), ffprobe by a stored stream list, ffmpeg
  by the number of frames it stages.
-/

namespace ConvertMedia

/-! ### Pixel model -/

abbrev RGB := Nat × Nat × Nat

structure Img where
  w : Nat
  h : Nat
  px : Nat → Nat → RGB

def DISPLAY_WIDTH : Nat := 320

def DISPLAY_HEIGHT : Nat := 240

/-- Python `int(...)` on an exact rational: truncation toward zero. -/
def pyInt (q : ℚ) : ℤ := if q < 0 then -⌊-q⌋ else ⌊q⌋

/-- Models `PIL.Image.resize`: an image of exactly the requested size.  The
spec never constrains the resampled pixel values, only the output geometry,
so the pixels are modelled by nearest-neighbour sampling. -/
def pilResize (img : Img) (w h : Nat) : Img :=
  { w := w, h := h, px := fun x y => img.px (x * img.w / w) (y * img.h / h) }

/-- `scale = min(target_w / img_w, target_h / img_h)` in `letterbox`. -/
def lbScale (img : Img) (target_w target_h : Nat) : ℚ :=
  min ((target_w : ℚ) / (img.w : ℚ)) ((target_h : ℚ) / (img.h : ℚ))

/-- `new_w = int(img_w * scale)` in `letterbox`. -/
def lbW (img : Img) (target_w target_h : Nat) : Nat :=
  (pyInt ((img.w : ℚ) * lbScale img target_w target_h)).toNat

/-- `new_h = int(img_h * scale)` in `letterbox`. -/
def lbH (img : Img) (target_w target_h : Nat) : Nat :=
  (pyInt ((img.h : ℚ) * lbScale img target_w target_h)).toNat

/-- `offset_x = (target_w - new_w) // 2` in `letterbox` (the difference is
nonnegative for every decodable source, so `Nat` subtraction is faithful). -/
def lbOx (img : Img) (target_w target_h : Nat) : Nat :=
  (target_w - lbW img target_w target_h) / 2

/-- `offset_y = (target_h - new_h) // 2` in `letterbox`. -/
def lbOy (img : Img) (target_w target_h : Nat) : Nat :=
  (target_h - lbH img target_w target_h) / 2

/-- `letterbox`: resize to fit, paste centered on a black canvas. -/
def letterbox (img : Img) (target_w target_h : Nat) : Img :=
  let new_w := lbW img target_w target_h
  let new_h := lbH img target_w target_h
  let resized := pilResize img new_w new_h
  let offset_x := lbOx img target_w target_h
  let offset_y := lbOy img target_w target_h
  { w := target_w, h := target_h,
    px := fun x y =>
      if offset_x ≤ x ∧ x < offset_x + new_w ∧ offset_y ≤ y ∧ y < offset_y + new_h then
        resized.px (x - offset_x) (y - offset_y)
      else (0, 0, 0) }

/-! ### Decimal formatting (Python str formatting of counters and indices) -/

def digitVal (c : Char) : Nat := c.toNat - 48

/-- Value of a big-endian decimal digit string. -/
def strVal (cs : List Char) : Nat := cs.foldl (fun a c => 10 * a + digitVal c) 0

/-- Big-endian decimal digits of `n` (`fuel ≥ n` makes the recursion
structural; `decChars n n` is the decimal representation of `n`). -/
def decChars : Nat → Nat → List Char
  | 0, _ => []
  | fuel + 1, n => if n = 0 then [] else decChars fuel (n / 10) ++ [Nat.digitChar (n % 10)]

/-- Python `str(n)` / `f"{n}"` for a natural number. -/
def natToStr (n : Nat) : String := if n = 0 then "0" else ⟨decChars n n⟩

/-- Python `f"{_:03d}"` zero padding to a minimum width of 3. -/
def pad3 (s : String) : String := ⟨List.replicate (3 - s.length) '0' ++ s.data⟩

/-- The frame file name `f"frame_{i:03d}.png"`. -/
def frameName (i : Nat) : String := "frame_" ++ pad3 (natToStr i) ++ ".png"

/-! ### os.path.splitext and str.lower on basenames -/

def leadingDots : List Char → Nat
  | [] => 0
  | c :: cs => if c = '.' then leadingDots cs + 1 else 0

def lastDotIdx (cs : List Char) : Option Nat :=
  (List.range cs.length).foldl (fun acc i => if cs.getD i ' ' = '.' then some i else acc) none

/-- `os.path.splitext` on a single path component: split at the last dot,
except that the leading dots of the name never start an extension. -/
def splitext (s : String) : String × String :=
  match lastDotIdx s.data with
  | none => (s, "")
  | some i => if i < leadingDots s.data then (s, "") else (⟨s.data.take i⟩, ⟨s.data.drop i⟩)

def lowerChar (c : Char) : Char :=
  if 65 ≤ c.toNat ∧ c.toNat ≤ 90 then Char.ofNat (c.toNat + 32) else c

/-- Python `str.lower()` (ASCII range, which covers every extension the
script compares against). -/
def strLower (s : String) : String := ⟨s.data.map lowerChar⟩

/-! ### Filesystem model -/

/-- A path, as the list of its components below the media library root. -/
abbrev FPath := List String

/-- What `PIL.Image.open` exposes of a decodable image file. -/
structure ImgData where
  format : String
  width : Nat
  height : Nat
  nFramesAttr : Option Nat
  duration : Option Nat
  frames : Nat → Nat → Nat → RGB

/-- The decoded frame `i` as an image buffer (`img.seek(i)`). -/
def frameImg (d : ImgData) (i : Nat) : Img := ⟨d.width, d.height, d.frames i⟩

/-- One stream object of the `ffprobe -show_streams` JSON output. -/
structure StreamInfo where
  codec_type : String
  r_frame_rate : Option (Nat × Nat)

/-- What the external tools observe of a video file: the probe result
(`error` = ffprobe failed or its output did not parse) and the ffmpeg
extraction result (`error` = nonzero exit, `ok m` = `m` staged frames). -/
structure VideoData where
  probe : Except Unit (List StreamInfo)
  ffmpegRun : Except Unit Nat

inductive Content
  | image (d : ImgData)
  | video (vd : VideoData)
  | corruptData
  | metaRec (frame_count : Nat) (delay_ms : ℤ)
  | dirMark
  | blob

/-- The filesystem: an association list from paths to contents. -/
abbrev FS := List (FPath × Content)

/-- `os.path.exists`. -/
def present (fs : FS) (p : FPath) : Prop := p ∈ fs.map Prod.fst

instance decPresent (fs : FS) (p : FPath) : Decidable (present fs p) := by
  unfold present; infer_instance

def getAt (fs : FS) (p : FPath) : Option Content :=
  (fs.find? fun e => decide (e.1 = p)).map Prod.snd

/-- `some name` when `q` is the entry `name` directly inside directory `d`. -/
def childNameOf (d : FPath) (q : FPath) : Option String :=
  if q.dropLast = d ∧ q.length = d.length + 1 then q.getLast? else none

/-- `os.listdir` (in filesystem order). -/
def childrenOf (fs : FS) (d : FPath) : List String :=
  fs.filterMap fun e => childNameOf d e.1

/-- `os.path.isdir`. -/
def isDirAt (fs : FS) (p : FPath) : Bool :=
  match getAt fs p with
  | some .dirMark => true
  | _ => false

/-! ### Naming resolver (`unique_path`, `unique_dir`) -/

/-- The candidate `f"{base}_{counter}{ext}"` of `unique_path`. -/
def pathCand (p : FPath) (n : Nat) : FPath :=
  let se := splitext (p.getLastD "")
  p.dropLast ++ [se.1 ++ "_" ++ natToStr n ++ se.2]

/-- The candidate `f"{path}_{counter}"` of `unique_dir`. -/
def dirCand (p : FPath) (n : Nat) : FPath :=
  p.dropLast ++ [p.getLastD "" ++ "_" ++ natToStr n]

/-- The `while os.path.exists(...)` search loop of the naming resolver.  The
fuel argument only makes the recursion structural: `fs.length + 1` candidates
always include a free one because candidates are pairwise distinct. -/
def findFree (fs : FS) (cand : Nat → FPath) : Nat → Nat → FPath
  | 0, n => cand n
  | fuel + 1, n => if present fs (cand n) then findFree fs cand fuel (n + 1) else cand n

def unique_path (fs : FS) (p : FPath) : FPath :=
  if present fs p then findFree fs (pathCand p) (fs.length + 1) 1 else p

def unique_dir (fs : FS) (p : FPath) : FPath :=
  if present fs p then findFree fs (dirCand p) (fs.length + 1) 1 else p

/-! ### Filesystem operations and traces -/

inductive FsOp
  | write (p : FPath) (c : Content)
  | mkdirOp (p : FPath)
  | removeOp (p : FPath)

inductive Outcome
  | done
  | raised
deriving DecidableEq

/-- Operations that create data (file/directory writes), as opposed to
deleting it. -/
def isWrite : FsOp → Bool
  | .removeOp _ => false
  | _ => true

/-- The result of running one converter: the ordered operations it performed
and whether it returned normally or raised. -/
structure CResult where
  ops : List FsOp
  outcome : Outcome

def applyOp (fs : FS) : FsOp → FS
  | .write p c => (p, c) :: fs.filter fun e => decide (e.1 ≠ p)
  | .mkdirOp p => (p, .dirMark) :: fs
  | .removeOp p => fs.filter fun e => decide (e.1 ≠ p)

def applyOps (fs : FS) (ops : List FsOp) : FS := ops.foldl applyOp fs

/-! ### Converters -/

/-- `PIL.Image.open`: `none` when the file is missing or not decodable
(the call raises). -/
def imOpen (fs : FS) (p : FPath) : Option ImgData :=
  match getAt fs p with
  | some (.image d) => some d
  | _ => none

/-- `Path(input_path).suffix.lower()`. -/
def suffixLower (p : FPath) : String := strLower (splitext (p.getLastD "")).2

def is_badge_ready_png (fs : FS) (p : FPath) : Bool :=
  match imOpen fs p with
  | some d => decide (d.format = "PNG" ∧ d.width = DISPLAY_WIDTH ∧ d.height = DISPLAY_HEIGHT)
  | none => false

/-- The content written by `save_png`: an RGB PNG with the pixels of `img`. -/
def pngOf (img : Img) : Content :=
  .image { format := "PNG", width := img.w, height := img.h,
           nFramesAttr := none, duration := none, frames := fun _ => img.px }

def convert_static_image (fs : FS) (input : FPath) : CResult :=
  let ext := suffixLower input
  if ext = ".png" ∧ is_badge_ready_png fs input = true then ⟨[], .done⟩
  else
    match imOpen fs input with
    | none => ⟨[], .raised⟩
    | some d =>
      let img := letterbox (frameImg d 0) DISPLAY_WIDTH DISPLAY_HEIGHT
      let stem := (splitext (input.getLastD "")).1
      let out_path := input.dropLast ++ [stem ++ ".png"]
      if ext ≠ ".png" then
        ⟨[.write (unique_path fs out_path) (pngOf img), .removeOp input], .done⟩
      else
        ⟨[.write input (pngOf img)], .done⟩

/-- `img.info.get("duration", 100)` followed by the zero check. -/
def gifDelay (d : ImgData) : Nat :=
  let delay := d.duration.getD 100
  if delay = 0 then 100 else delay

/-- The operation sequence shared by the two animation converters: create the
frame directory, write the frames in order, write the metadata record, and
only then remove the source. -/
def anim_ops (fd : FPath) (cs : Nat → Content) (n : Nat) (meta : Content)
    (input : FPath) : List FsOp :=
  FsOp.mkdirOp fd ::
    (((List.range n).map fun i => FsOp.write (fd ++ [frameName i]) (cs i))
      ++ [FsOp.write (fd ++ ["meta.txt"]) meta, FsOp.removeOp input])

def convert_gif (fs : FS) (input : FPath) : CResult :=
  match imOpen fs input with
  | none => ⟨[], .raised⟩
  | some d =>
    let n_frames := d.nFramesAttr.getD 1
    if n_frames ≤ 1 then convert_static_image fs input
    else
      let stem := (splitext (input.getLastD "")).1
      let frame_dir := unique_dir fs (input.dropLast ++ [stem])
      ⟨anim_ops frame_dir
          (fun i => pngOf (letterbox (frameImg d i) DISPLAY_WIDTH DISPLAY_HEIGHT))
          n_frames (.metaRec n_frames (gifDelay d : ℤ)) input,
       .done⟩

/-- Availability of the external tools on PATH (`shutil.which`). -/
structure Env where
  ffmpeg : Bool
  ffprobe : Bool

/-- The body of the fps probe `try` block after the JSON parse: find the
first video stream, read `r_frame_rate` (default `"10/1"`), divide.
`error` is a `ZeroDivisionError`, caught by the surrounding handler. -/
def streamsFps (streams : List StreamInfo) : Except Unit ℚ :=
  match streams.find? fun st => decide (st.codec_type = "video") with
  | none => .ok 10
  | some st =>
    match st.r_frame_rate with
    | none => .ok 10
    | some (num, den) => if den = 0 then .error () else .ok ((num : ℚ) / (den : ℚ))

/-- The probed source fps, with the default of 10 on any probe failure. -/
def videoFps (vd : VideoData) : ℚ :=
  match vd.probe with
  | .error _ => 10
  | .ok streams =>
    match streamsFps streams with
    | .error _ => 10
    | .ok fps => fps

/-- `target_fps = min(fps, 15)`. -/
def targetFps (fps : ℚ) : ℚ := min fps 15

/-- `delay_ms = int(1000 / target_fps)`. -/
def videoDelay (fps : ℚ) : ℤ := pyInt (1000 / targetFps fps)

def vdataOf (fs : FS) (p : FPath) : VideoData :=
  match getAt fs p with
  | some (.video vd) => vd
  | _ => ⟨.error (), .error ()⟩

/-- `len([x for x in os.listdir(d) if x.endswith(".png")])`. -/
def endsPng (s : String) : Bool :=
  match s.data.reverse with
  | 'g' :: 'n' :: 'p' :: '.' :: _ => true
  | _ => false

def countPng (fs : FS) (d : FPath) : Nat := ((childrenOf fs d).filter endsPng).length

def convert_video (env : Env) (fs : FS) (input : FPath) : CResult :=
  if env.ffmpeg = false ∨ env.ffprobe = false then ⟨[], .done⟩
  else
    let stem := (splitext (input.getLastD "")).1
    let frame_dir := unique_dir fs (input.dropLast ++ [stem])
    let vd := vdataOf fs input
    let fps := videoFps vd
    if targetFps fps = 0 then ⟨[.mkdirOp frame_dir], .raised⟩
    else
      match vd.ffmpegRun with
      | .error _ => ⟨[.mkdirOp frame_dir], .raised⟩
      | .ok m =>
        let moves := (List.range m).map fun i =>
          FsOp.write (frame_dir ++ [frameName i]) Content.blob
        let staged := applyOps fs (FsOp.mkdirOp frame_dir :: moves)
        let frame_count := countPng staged frame_dir
        ⟨anim_ops frame_dir (fun _ => Content.blob) m
            (.metaRec frame_count (videoDelay fps)) input,
         .done⟩

/-! ### Orchestrator -/

def SUPPORTED_IMAGES : List String := [".jpg", ".jpeg", ".png", ".bmp", ".webp"]

def SUPPORTED_GIFS : List String := [".gif"]

def SUPPORTED_VIDEOS : List String := [".mp4", ".avi", ".mov", ".webm", ".mkv"]

def ALL_SUPPORTED : List String := SUPPORTED_IMAGES ++ SUPPORTED_GIFS ++ SUPPORTED_VIDEOS

def process_file (env : Env) (fs : FS) (p : FPath) : CResult :=
  let ext := suffixLower p
  if ext ∈ SUPPORTED_GIFS then convert_gif fs p
  else if ext ∈ SUPPORTED_VIDEOS then convert_video env fs p
  else if ext ∈ SUPPORTED_IMAGES then convert_static_image fs p
  else ⟨[], .done⟩

/-- `entry.startswith(".")`. -/
def startsDot (s : String) : Bool :=
  match s.data with
  | '.' :: _ => true
  | _ => false

/-- Python string `<` (lexicographic by code point), as `sorted` uses. -/
def lexLe : List Char → List Char → Bool
  | [], _ => true
  | _ :: _, [] => false
  | a :: as, b :: bs => if a < b then true else if b < a then false else lexLe as bs

def insertStr (x : String) : List String → List String
  | [] => [x]
  | y :: ys => if lexLe x.data y.data then x :: y :: ys else y :: insertStr x ys

/-- Python `sorted` on the entry names. -/
def sortStr (l : List String) : List String := l.foldr insertStr []

/-- The entry loop of `process_playlist`: skip hidden entries and
directories, dispatch supported files, thread the filesystem through; an
uncaught exception propagates and stops the loop. -/
def runEntries (env : Env) (pl : FPath) : List String → FS → CResult
  | [], _ => ⟨[], .done⟩
  | e :: rest, fs =>
    if startsDot e then runEntries env pl rest fs
    else if isDirAt fs (pl ++ [e]) then runEntries env pl rest fs
    else if strLower (splitext e).2 ∈ ALL_SUPPORTED then
      let r := process_file env fs (pl ++ [e])
      match r.outcome with
      | .raised => ⟨r.ops, .raised⟩
      | .done =>
        let r2 := runEntries env pl rest (applyOps fs r.ops)
        ⟨r.ops ++ r2.ops, r2.outcome⟩
    else runEntries env pl rest fs

def process_playlist (env : Env) (fs : FS) (pl : FPath) : CResult :=
  runEntries env pl (sortStr (childrenOf fs pl)) fs

/-- The sorted non-hidden playlist directories under the library root. -/
def rootPlaylists (fs : FS) : List String :=
  sortStr ((childrenOf fs []).filter fun e => isDirAt fs [e] && !(startsDot e))

def runPlaylists (env : Env) : List String → FS → CResult
  | [], _ => ⟨[], .done⟩
  | pl :: rest, fs =>
    let r := process_playlist env fs [pl]
    match r.outcome with
    | .raised => ⟨r.ops, .raised⟩
    | .done =>
      let r2 := runPlaylists env rest (applyOps fs r.ops)
      ⟨r.ops ++ r2.ops, r2.outcome⟩

structure MainResult where
  ops : List FsOp
  exit_code : Nat

/-- `main`: exit 1 on a missing media dir, exit 1 when no playlist
directories exist, exit 1 when an item raised an uncaught exception (the
Python interpreter exit code for an unhandled error), else exit 0. -/
def main (env : Env) (fs : FS) (mediaDirOk : Bool) : MainResult :=
  if mediaDirOk = false then ⟨[], 1⟩
  else
    let playlists := rootPlaylists fs
    if playlists = [] then ⟨[], 1⟩
    else
      let r := runPlaylists env playlists fs
      ⟨r.ops, match r.outcome with | .done => 0 | .raised => 1⟩

/-- Well-formedness of a filesystem as an on-disk tree: no duplicate paths,
no entry at the root path itself, and every entry below the first level has
its parent directory present. -/
def WF (fs : FS) : Prop :=
  (fs.map Prod.fst).Nodup ∧ ∀ e ∈ fs, e.1 ≠ [] ∧ (e.1.dropLast = [] ∨ present fs e.1.dropLast)

instance decWF (fs : FS) : Decidable (WF fs) := by
  unfold WF; infer_instance

/-! ### Concrete fixtures (used as test inputs by witness theorems) -/

def envAll : Env := ⟨true, true⟩

def envNone : Env := ⟨false, false⟩

/-- A tiny 2-frame GIF whose metadata records a zero duration. -/
def demoGif : ImgData :=
  { format := "GIF", width := 2, height := 2, nFramesAttr := some 2,
    duration := some 0, frames := fun _ _ _ => (0, 0, 0) }

/-- A canonical 320x240 PNG. -/
def demoReadyPng : ImgData :=
  { format := "PNG", width := 320, height := 240, nFramesAttr := none,
    duration := none, frames := fun _ _ _ => (0, 0, 0) }

/-- A decodable 500x500 JPEG-format still image. -/
def demoJpeg : ImgData :=
  { format := "JPEG", width := 500, height := 500, nFramesAttr := none,
    duration := none, frames := fun _ _ _ => (0, 0, 0) }

/-- A 500x500 image buffer. -/
def demoSquare : Img := ⟨500, 500, fun _ _ => (7, 7, 7)⟩

/-- A video whose probe fails outright and whose extraction stages 2 frames. -/
def demoVideoNoProbe : VideoData := ⟨.error (), .ok 2⟩

/-- Playlist with a corrupt JPEG sorting before a convertible JPEG. -/
def fsCorrupt : FS :=
  [(["pl"], .dirMark), (["pl", "a.jpg"], .corruptData), (["pl", "b.jpg"], .image demoJpeg)]

/-- Library with one playlist holding a single animated GIF. -/
def fsGif : FS := [(["pl"], .dirMark), (["pl", "anim.gif"], .image demoGif)]

/-- Library with one playlist holding one video file. -/
def fsVideo : FS := [(["p"], .dirMark), (["p", "v.mp4"], .video demoVideoNoProbe)]

/-- Filesystem in which the desired output name and its first suffixed
variant are both taken. -/
def fsNames : FS := [(["a.png"], .blob), (["a_1.png"], .blob)]

/-- A canonical PNG stored at a `.png` path. -/
def fsReady : FS := [(["pl"], .dirMark), (["pl", "img.png"], .image demoReadyPng)]

/-- A JPEG stored under its own name. -/
def fsJpeg : FS := [(["pl"], .dirMark), (["pl", "photo.jpg"], .image demoJpeg)]

/-! ## Lemmas: decimal strings and generated names -/

lemma strVal_concat (xs : List Char) (c : Char) :
    strVal (xs ++ [c]) = 10 * strVal xs + digitVal c := by
  simp [strVal, List.foldl_append]

lemma digitVal_digitChar : ∀ d < 10, digitVal (Nat.digitChar d) = d := by decide

lemma strVal_decChars : ∀ fuel n, n ≤ fuel → strVal (decChars fuel n) = n := by
  intro fuel
  induction fuel with
  | zero =>
    intro n h
    have h0 : n = 0 := Nat.le_zero.1 h
    subst h0; rfl
  | succ f ih =>
    intro n h
    by_cases h0 : n = 0
    · subst h0; simp [decChars, strVal]
    · rw [decChars, if_neg h0, strVal_concat,
        ih (n / 10) (by
          have := Nat.div_lt_self (Nat.pos_of_ne_zero h0) (by norm_num : 1 < 10)
          omega),
        digitVal_digitChar _ (Nat.mod_lt _ (by norm_num))]
      exact Nat.div_add_mod n 10

lemma strVal_natToStr (n : Nat) : strVal (natToStr n).data = n := by
  unfold natToStr
  by_cases h : n = 0
  · subst h; decide
  · rw [if_neg h]; exact strVal_decChars n n le_rfl

lemma strVal_cons_zero (l : List Char) : strVal ('0' :: l) = strVal l := rfl

lemma strVal_replicate_zero (k : Nat) (l : List Char) :
    strVal (List.replicate k '0' ++ l) = strVal l := by
  induction k with
  | zero => rfl
  | succ k ih => rw [List.replicate_succ, List.cons_append, strVal_cons_zero, ih]

lemma strVal_pad3 (s : String) : strVal (pad3 s).data = strVal s.data :=
  strVal_replicate_zero _ _

lemma frameName_inj {i j : Nat} (h : frameName i = frameName j) : i = j := by
  unfold frameName at h
  have h1 : (pad3 (natToStr i)).data = (pad3 (natToStr j)).data := by
    have h0 := congrArg String.data h
    simp only [String.data_append, List.append_cancel_left_eq,
      List.append_cancel_right_eq] at h0
    exact h0
  have h2 := congrArg strVal h1
  rw [strVal_pad3, strVal_pad3, strVal_natToStr, strVal_natToStr] at h2
  exact h2

lemma frameName_ne_meta (i : Nat) : frameName i ≠ "meta.txt" := by
  intro h
  have h0 := congrArg String.data h
  simp only [frameName, String.data_append] at h0
  simp at h0

lemma endsPng_frameName (i : Nat) : endsPng (frameName i) = true := by
  unfold endsPng frameName
  simp only [String.data_append, List.reverse_append]
  have h4 : (".png" : String).data.reverse = 'g' :: 'n' :: 'p' :: '.' :: [] := rfl
  rw [h4]
  rfl

lemma endsPng_meta : endsPng "meta.txt" = false := rfl

lemma natToStr_data_inj {m n : Nat} (h : (natToStr m).data = (natToStr n).data) : m = n := by
  have h2 := congrArg strVal h
  rwa [strVal_natToStr, strVal_natToStr] at h2

lemma pathCand_inj (p : FPath) {m n : Nat} (h : pathCand p m = pathCand p n) : m = n := by
  unfold pathCand at h
  have h1 := List.append_cancel_left h
  have h2 : (splitext (p.getLastD "")).1 ++ "_" ++ natToStr m ++ (splitext (p.getLastD "")).2
      = (splitext (p.getLastD "")).1 ++ "_" ++ natToStr n ++ (splitext (p.getLastD "")).2 :=
    (List.cons.inj h1).1
  have h3 := congrArg String.data h2
  simp only [String.data_append, List.append_assoc, List.append_cancel_left_eq,
    List.append_cancel_right_eq] at h3
  exact natToStr_data_inj h3

lemma dirCand_inj (p : FPath) {m n : Nat} (h : dirCand p m = dirCand p n) : m = n := by
  unfold dirCand at h
  have h1 := List.append_cancel_left h
  have h2 : p.getLastD "" ++ "_" ++ natToStr m = p.getLastD "" ++ "_" ++ natToStr n :=
    (List.cons.inj h1).1
  have h3 := congrArg String.data h2
  simp only [String.data_append, List.append_assoc, List.append_cancel_left_eq] at h3
  exact natToStr_data_inj h3

/-! ## Lemmas: naming resolver -/

lemma exists_free_cand (fs : FS) (cand : Nat → FPath)
    (hinj : ∀ {m n : Nat}, cand m = cand n → m = n) :
    ∃ k, k ≤ fs.length ∧ ¬ present fs (cand (1 + k)) := by
  by_contra hc
  push_neg at hc
  have hmaps : ∀ k ∈ Finset.range (fs.length + 1),
      cand (1 + k) ∈ (fs.map Prod.fst).toFinset := by
    intro k hk
    rw [List.mem_toFinset]
    exact hc k (by simpa using Nat.lt_succ_iff.1 (Finset.mem_range.1 hk))
  have hinj2 : Set.InjOn (fun k => cand (1 + k)) (Finset.range (fs.length + 1)) := by
    intro a _ b _ hab
    have := hinj hab
    omega
  have hcard := Finset.card_le_card_of_injOn _ hmaps hinj2
  rw [Finset.card_range] at hcard
  have h2 : (fs.map Prod.fst).toFinset.card ≤ fs.length := by
    calc (fs.map Prod.fst).toFinset.card ≤ (fs.map Prod.fst).length :=
          (fs.map Prod.fst).toFinset_card_le
      _ = fs.length := List.length_map _ _
  omega

lemma findFree_spec (fs : FS) (cand : Nat → FPath) :
    ∀ fuel start, (∃ k, k < fuel ∧ ¬ present fs (cand (start + k))) →
      ∃ j, (∀ i, i < j → present fs (cand (start + i))) ∧ ¬ present fs (cand (start + j)) ∧
        findFree fs cand fuel start = cand (start + j) := by
  intro fuel
  induction fuel with
  | zero =>
    intro start h
    obtain ⟨k, hk, _⟩ := h
    omega
  | succ f ih =>
    intro start h
    by_cases hp : present fs (cand start)
    · obtain ⟨k, hk, hfree⟩ := h
      have hk0 : k ≠ 0 := by
        rintro rfl
        exact hfree (by simpa using hp)
      obtain ⟨j, hmin, hfree2, heq⟩ := ih (start + 1)
        ⟨k - 1, by omega, by
          have e : start + 1 + (k - 1) = start + k := by omega
          rwa [e]⟩
      refine ⟨j + 1, ?_, ?_, ?_⟩
      · intro i hi
        cases i with
        | zero => simpa using hp
        | succ i2 =>
          have e : start + (i2 + 1) = start + 1 + i2 := by omega
          rw [e]
          exact hmin i2 (by omega)
      · have e : start + (j + 1) = start + 1 + j := by omega
        rw [e]
        exact hfree2
      · rw [findFree, if_pos hp, heq]
        congr 1
        omega
    · refine ⟨0, fun i hi => absurd hi (Nat.not_lt_zero i), by simpa using hp, ?_⟩
      rw [findFree, if_neg hp]
      congr 1

lemma unique_path_min (fs : FS) (p : FPath) (h : present fs p) :
    ∃ n, 1 ≤ n ∧ unique_path fs p = pathCand p n ∧ ¬ present fs (pathCand p n) ∧
      ∀ m, 1 ≤ m → m < n → present fs (pathCand p m) := by
  unfold unique_path
  rw [if_pos h]
  obtain ⟨k, hk, hfree⟩ := exists_free_cand fs (pathCand p) (pathCand_inj p)
  obtain ⟨j, hmin, hfree2, heq⟩ := findFree_spec fs (pathCand p) (fs.length + 1) 1
    ⟨k, by omega, hfree⟩
  refine ⟨1 + j, by omega, heq, hfree2, ?_⟩
  intro m h1 hm
  have e : m = 1 + (m - 1) := by omega
  rw [e]
  exact hmin (m - 1) (by omega)

lemma unique_dir_min (fs : FS) (p : FPath) (h : present fs p) :
    ∃ n, 1 ≤ n ∧ unique_dir fs p = dirCand p n ∧ ¬ present fs (dirCand p n) ∧
      ∀ m, 1 ≤ m → m < n → present fs (dirCand p m) := by
  unfold unique_dir
  rw [if_pos h]
  obtain ⟨k, hk, hfree⟩ := exists_free_cand fs (dirCand p) (dirCand_inj p)
  obtain ⟨j, hmin, hfree2, heq⟩ := findFree_spec fs (dirCand p) (fs.length + 1) 1
    ⟨k, by omega, hfree⟩
  refine ⟨1 + j, by omega, heq, hfree2, ?_⟩
  intro m h1 hm
  have e : m = 1 + (m - 1) := by omega
  rw [e]
  exact hmin (m - 1) (by omega)

lemma unique_path_id (fs : FS) (p : FPath) (h : ¬ present fs p) : unique_path fs p = p := by
  unfold unique_path
  rw [if_neg h]

lemma unique_dir_id (fs : FS) (p : FPath) (h : ¬ present fs p) : unique_dir fs p = p := by
  unfold unique_dir
  rw [if_neg h]

lemma unique_path_free (fs : FS) (p : FPath) : ¬ present fs (unique_path fs p) := by
  by_cases h : present fs p
  · obtain ⟨n, _, heq, hfree, _⟩ := unique_path_min fs p h
    rw [heq]
    exact hfree
  · rw [unique_path_id fs p h]
    exact h

lemma unique_dir_free (fs : FS) (p : FPath) : ¬ present fs (unique_dir fs p) := by
  by_cases h : present fs p
  · obtain ⟨n, _, heq, hfree, _⟩ := unique_dir_min fs p h
    rw [heq]
    exact hfree
  · rw [unique_dir_id fs p h]
    exact h

lemma unique_dir_ne_nil (fs : FS) (p : FPath) (h : p ≠ []) : unique_dir fs p ≠ [] := by
  by_cases hp : present fs p
  · obtain ⟨n, _, heq, _, _⟩ := unique_dir_min fs p hp
    rw [heq]
    unfold dirCand
    simp
  · rw [unique_dir_id fs p hp]
    exact h

/-! ## Lemmas: filesystem lookups and operation application -/

lemma present_iff (fs : FS) (p : FPath) : present fs p ↔ ∃ e ∈ fs, e.1 = p := by
  unfold present
  rw [List.mem_map]

lemma getAt_isSome_iff (fs : FS) (p : FPath) : (getAt fs p).isSome ↔ present fs p := by
  unfold getAt
  have hmap : (Option.map Prod.snd (List.find? (fun e => decide (e.1 = p)) fs)).isSome
      = (List.find? (fun e => decide (e.1 = p)) fs).isSome := by
    cases List.find? (fun e => decide (e.1 = p)) fs <;> rfl
  rw [hmap, List.find?_isSome, present_iff fs p]
  constructor
  · rintro ⟨e, he, h1⟩
    exact ⟨e, he, of_decide_eq_true h1⟩
  · rintro ⟨e, he, h1⟩
    exact ⟨e, he, decide_eq_true h1⟩

lemma present_of_getAt {fs : FS} {p : FPath} {c : Content} (h : getAt fs p = some c) :
    present fs p := by
  rw [← getAt_isSome_iff, h]
  rfl

lemma getAt_eq_none (fs : FS) (p : FPath) (h : ¬ present fs p) : getAt fs p = none := by
  rw [← getAt_isSome_iff] at h
  exact Option.not_isSome_iff_eq_none.1 h

lemma getAt_cons (e : FPath × Content) (fs : FS) (q : FPath) :
    getAt (e :: fs) q = if e.1 = q then some e.2 else getAt fs q := by
  unfold getAt
  rw [List.find?_cons]
  by_cases h : e.1 = q
  · simp [h]
  · simp [h]

lemma getAt_filter_ne (fs : FS) (p q : FPath) (h : q ≠ p) :
    getAt (fs.filter fun e => decide (e.1 ≠ p)) q = getAt fs q := by
  induction fs with
  | nil => rfl
  | cons e fs ih =>
    rw [List.filter_cons]
    by_cases he : e.1 = p
    · rw [if_neg (by simp [he]), ih, getAt_cons, if_neg (by rw [he]; exact fun hh => h hh.symm)]
    · rw [if_pos (by simp [he]), getAt_cons, getAt_cons, ih]

lemma getAt_filter_self (fs : FS) (p : FPath) :
    getAt (fs.filter fun e => decide (e.1 ≠ p)) p = none := by
  apply getAt_eq_none
  intro hpres
  rw [present_iff] at hpres
  obtain ⟨e, he, he1⟩ := hpres
  rw [List.mem_filter] at he
  have := he.2
  simp [he1] at this

lemma getAt_applyOp_write (fs : FS) (p q : FPath) (c : Content) :
    getAt (applyOp fs (.write p c)) q = if q = p then some c else getAt fs q := by
  show getAt ((p, c) :: _) q = _
  rw [getAt_cons]
  by_cases h : q = p
  · rw [if_pos h.symm, if_pos h]
  · rw [if_neg (fun hh => h hh.symm), if_neg h, getAt_filter_ne fs p q h]

lemma getAt_applyOp_mkdir (fs : FS) (p q : FPath) :
    getAt (applyOp fs (.mkdirOp p)) q = if q = p then some .dirMark else getAt fs q := by
  show getAt ((p, Content.dirMark) :: fs) q = _
  rw [getAt_cons]
  by_cases h : q = p
  · rw [if_pos h.symm, if_pos h]
  · rw [if_neg (fun hh => h hh.symm), if_neg h]

lemma getAt_applyOp_removeOp (fs : FS) (p q : FPath) :
    getAt (applyOp fs (.removeOp p)) q = if q = p then none else getAt fs q := by
  by_cases h : q = p
  · rw [if_pos h, h]
    exact getAt_filter_self fs p
  · rw [if_neg h]
    exact getAt_filter_ne fs p q h

lemma applyOps_cons (fs : FS) (op : FsOp) (ops : List FsOp) :
    applyOps fs (op :: ops) = applyOps (applyOp fs op) ops := rfl

lemma applyOps_singleton (fs : FS) (op : FsOp) : applyOps fs [op] = applyOp fs op := rfl

lemma applyOps_append (fs : FS) (l1 l2 : List FsOp) :
    applyOps fs (l1 ++ l2) = applyOps (applyOps fs l1) l2 := by
  unfold applyOps
  rw [List.foldl_append]

/-! ## Lemmas: directory listings -/

lemma childNameOf_eq_some {d q : FPath} {s : String} :
    childNameOf d q = some s ↔ q = d ++ [s] := by
  unfold childNameOf
  constructor
  · intro h
    by_cases hc : q.dropLast = d ∧ q.length = d.length + 1
    · rw [if_pos hc] at h
      have hne : q ≠ [] := by
        intro e
        have h2 := hc.2
        rw [e] at h2
        simp at h2
      rw [List.getLast?_eq_getLast q hne] at h
      have hs := Option.some.inj h
      calc q = q.dropLast ++ [q.getLast hne] := (List.dropLast_append_getLast hne).symm
        _ = d ++ [s] := by rw [hc.1, hs]
    · rw [if_neg hc] at h
      simp at h
  · rintro rfl
    rw [if_pos ⟨List.dropLast_concat, by simp⟩]
    simp [List.getLast?_concat]

lemma mem_childrenOf {fs : FS} {d : FPath} {s : String} :
    s ∈ childrenOf fs d ↔ present fs (d ++ [s]) := by
  unfold childrenOf
  rw [List.mem_filterMap, present_iff]
  constructor
  · rintro ⟨e, he, hc⟩
    exact ⟨e, he, childNameOf_eq_some.1 hc⟩
  · rintro ⟨e, he, h1⟩
    exact ⟨e, he, childNameOf_eq_some.2 h1⟩

lemma concat_inj_right {d : FPath} {a b : String} (h : d ++ [a] = d ++ [b]) : a = b :=
  (List.cons.inj (List.append_cancel_left h)).1

/-! ## Lemmas: key uniqueness -/

lemma nodupKeys_filter (fs : FS) (pred : FPath × Content → Bool)
    (h : (fs.map Prod.fst).Nodup) : ((fs.filter pred).map Prod.fst).Nodup :=
  List.Nodup.sublist (List.Sublist.map Prod.fst (List.filter_sublist fs)) h

lemma nodupKeys_applyOp_write (fs : FS) (p : FPath) (c : Content)
    (h : (fs.map Prod.fst).Nodup) :
    ((applyOp fs (.write p c)).map Prod.fst).Nodup := by
  show (((p, c) :: _).map Prod.fst).Nodup
  rw [List.map_cons, List.nodup_cons]
  refine ⟨?_, nodupKeys_filter fs _ h⟩
  intro hmem
  rw [List.mem_map] at hmem
  obtain ⟨e, he, he1⟩ := hmem
  rw [List.mem_filter] at he
  have := he.2
  simp [he1] at this

lemma nodupKeys_applyOp_mkdir (fs : FS) (p : FPath)
    (h : (fs.map Prod.fst).Nodup) (hp : ¬ present fs p) :
    ((applyOp fs (.mkdirOp p)).map Prod.fst).Nodup := by
  show (((p, Content.dirMark) :: fs).map Prod.fst).Nodup
  rw [List.map_cons, List.nodup_cons]
  exact ⟨hp, h⟩

lemma nodupKeys_applyOp_removeOp (fs : FS) (p : FPath)
    (h : (fs.map Prod.fst).Nodup) :
    ((applyOp fs (.removeOp p)).map Prod.fst).Nodup :=
  nodupKeys_filter fs _ h

lemma childrenOf_nodup {fs : FS} (h : (fs.map Prod.fst).Nodup) (d : FPath) :
    (childrenOf fs d).Nodup := by
  unfold childrenOf
  have e : (fs.filterMap fun e => childNameOf d e.1)
      = (fs.map Prod.fst).filterMap (childNameOf d) := by
    rw [List.filterMap_map]
    rfl
  rw [e]
  apply h.filterMap
  intro a a2 b hb hb2
  rw [Option.mem_def, childNameOf_eq_some] at hb hb2
  rw [hb, hb2]

/-! ## Lemmas: well-formed trees -/

lemma not_mem_childrenOf_of_not_present {fs : FS} {d : FPath} (hWF : WF fs)
    (hne : d ≠ []) (h : ¬ present fs d) (s : String) : s ∉ childrenOf fs d := by
  intro hs
  rw [mem_childrenOf, present_iff] at hs
  obtain ⟨e, he, h1⟩ := hs
  obtain ⟨h2, h3⟩ := hWF.2 e he
  rw [h1, List.dropLast_concat] at h3
  rcases h3 with h3 | h3
  · exact hne h3
  · exact h h3

lemma not_present_child_of_not_present {fs : FS} {d : FPath} (hWF : WF fs)
    (hne : d ≠ []) (h : ¬ present fs d) (s : String) : ¬ present fs (d ++ [s]) := by
  intro hp
  exact not_mem_childrenOf_of_not_present hWF hne h s (mem_childrenOf.2 hp)

/-! ## Lemmas: batches of frame writes -/

lemma getAt_writes_other (fs : FS) (fd : FPath) (cs : Nat → Content) (n : Nat) (q : FPath)
    (hq : ∀ i, i < n → q ≠ fd ++ [frameName i]) :
    getAt (applyOps fs ((List.range n).map fun i => FsOp.write (fd ++ [frameName i]) (cs i))) q
      = getAt fs q := by
  induction n with
  | zero => rfl
  | succ n ih =>
    rw [List.range_succ, List.map_append, applyOps_append, List.map_singleton,
      applyOps_singleton, getAt_applyOp_write, if_neg (hq n (Nat.lt_succ_self n))]
    exact ih fun i hi => hq i (by omega)

lemma getAt_writes_frame (fs : FS) (fd : FPath) (cs : Nat → Content) (n : Nat) (i : Nat)
    (hi : i < n) :
    getAt (applyOps fs ((List.range n).map fun i => FsOp.write (fd ++ [frameName i]) (cs i)))
      (fd ++ [frameName i]) = some (cs i) := by
  induction n with
  | zero => omega
  | succ n ih =>
    rw [List.range_succ, List.map_append, applyOps_append, List.map_singleton,
      applyOps_singleton, getAt_applyOp_write]
    by_cases h : i = n
    · subst h
      rw [if_pos rfl]
    · rw [if_neg fun he => h (frameName_inj (concat_inj_right he))]
      exact ih (by omega)

/-! ## Lemmas: the state after an animation conversion -/

lemma concat_ne_self {d : FPath} {s : String} : d ++ [s] ≠ d := by
  intro h
  have := congrArg List.length h
  simp at this

lemma nodupKeys_writes (fs : FS) (fd : FPath) (cs : Nat → Content) (n : Nat)
    (h : (fs.map Prod.fst).Nodup) :
    ((applyOps fs ((List.range n).map fun i => FsOp.write (fd ++ [frameName i]) (cs i))).map
      Prod.fst).Nodup := by
  induction n with
  | zero => exact h
  | succ n ih =>
    rw [List.range_succ, List.map_append, applyOps_append, List.map_singleton,
      applyOps_singleton]
    exact nodupKeys_applyOp_write _ _ _ ih

lemma staged_getAt_frame (fs : FS) (fd : FPath) (cs : Nat → Content) (n : Nat) (i : Nat)
    (hi : i < n) :
    getAt (applyOps fs (FsOp.mkdirOp fd ::
        (List.range n).map fun i => FsOp.write (fd ++ [frameName i]) (cs i)))
      (fd ++ [frameName i]) = some (cs i) := by
  rw [applyOps_cons]
  exact getAt_writes_frame _ _ _ _ _ hi

lemma staged_getAt_other (fs : FS) (fd : FPath) (cs : Nat → Content) (n : Nat) (q : FPath)
    (hq : ∀ i, i < n → q ≠ fd ++ [frameName i]) :
    getAt (applyOps fs (FsOp.mkdirOp fd ::
        (List.range n).map fun i => FsOp.write (fd ++ [frameName i]) (cs i))) q
      = if q = fd then some .dirMark else getAt fs q := by
  rw [applyOps_cons, getAt_writes_other _ _ _ _ _ hq, getAt_applyOp_mkdir]

lemma staged_nodupKeys (fs : FS) (fd : FPath) (cs : Nat → Content) (n : Nat)
    (h : (fs.map Prod.fst).Nodup) (hfd : ¬ present fs fd) :
    ((applyOps fs (FsOp.mkdirOp fd ::
        (List.range n).map fun i => FsOp.write (fd ++ [frameName i]) (cs i))).map
      Prod.fst).Nodup := by
  rw [applyOps_cons]
  exact nodupKeys_writes _ _ _ _ (nodupKeys_applyOp_mkdir fs fd h hfd)

lemma staged_children (fs : FS) (fd : FPath) (cs : Nat → Content) (n : Nat)
    (hWF : WF fs) (hfd : ¬ present fs fd) (hne : fd ≠ []) (s : String) :
    (s ∈ childrenOf (applyOps fs (FsOp.mkdirOp fd ::
        (List.range n).map fun i => FsOp.write (fd ++ [frameName i]) (cs i))) fd
      ↔ ∃ i, i < n ∧ s = frameName i) := by
  rw [mem_childrenOf, ← getAt_isSome_iff]
  constructor
  · intro h
    by_contra hno
    push_neg at hno
    rw [staged_getAt_other fs fd cs n _
        (fun i hi he => hno i hi (concat_inj_right he)),
      if_neg concat_ne_self, getAt_eq_none fs _
        (not_present_child_of_not_present hWF hne hfd s)] at h
    simp at h
  · rintro ⟨i, hi, rfl⟩
    rw [staged_getAt_frame fs fd cs n i hi]
    rfl

lemma staged_count (fs : FS) (fd : FPath) (cs : Nat → Content) (n : Nat)
    (hWF : WF fs) (hfd : ¬ present fs fd) (hne : fd ≠ []) :
    countPng (applyOps fs (FsOp.mkdirOp fd ::
        (List.range n).map fun i => FsOp.write (fd ++ [frameName i]) (cs i))) fd = n := by
  have hnodup := childrenOf_nodup (staged_nodupKeys fs fd cs n hWF.1 hfd) fd
  have htarget : ((List.range n).map frameName).Nodup :=
    List.Nodup.map (fun a b h => frameName_inj h) (List.nodup_range n)
  have hperm : List.Perm
      (childrenOf (applyOps fs (FsOp.mkdirOp fd ::
        (List.range n).map fun i => FsOp.write (fd ++ [frameName i]) (cs i))) fd)
      ((List.range n).map frameName) := by
    rw [List.perm_ext_iff_of_nodup hnodup htarget]
    intro s
    rw [staged_children fs fd cs n hWF hfd hne s]
    simp [List.mem_map, eq_comm]
  unfold countPng
  rw [List.Perm.length_eq (List.Perm.filter endsPng hperm)]
  rw [List.filter_eq_self.2 (by
    intro a ha
    rw [List.mem_map] at ha
    obtain ⟨i, _, rfl⟩ := ha
    exact endsPng_frameName i)]
  simp

lemma applyOps_pair (fs : FS) (a b : FsOp) : applyOps fs [a, b] = applyOp (applyOp fs a) b := rfl

lemma anim_ops_eq (fd : FPath) (cs : Nat → Content) (n : Nat) (meta : Content) (input : FPath) :
    anim_ops fd cs n meta input
      = (FsOp.mkdirOp fd :: (List.range n).map fun i => FsOp.write (fd ++ [frameName i]) (cs i))
        ++ [FsOp.write (fd ++ ["meta.txt"]) meta, FsOp.removeOp input] := by
  unfold anim_ops
  simp

lemma anim_state (fs : FS) (fd input : FPath) (cs : Nat → Content) (n : Nat) (meta : Content)
    (hWF : WF fs) (hfd : ¬ present fs fd) (hne : fd ≠ []) (hin : present fs input) :
    (∀ i, i < n → getAt (applyOps fs (anim_ops fd cs n meta input)) (fd ++ [frameName i])
        = some (cs i)) ∧
    getAt (applyOps fs (anim_ops fd cs n meta input)) (fd ++ ["meta.txt"]) = some meta ∧
    getAt (applyOps fs (anim_ops fd cs n meta input)) input = none ∧
    (∀ s, s ∈ childrenOf (applyOps fs (anim_ops fd cs n meta input)) fd
      ↔ (s = "meta.txt" ∨ ∃ i, i < n ∧ s = frameName i)) ∧
    (childrenOf (applyOps fs (anim_ops fd cs n meta input)) fd).length = n + 1 := by
  have hchild_ne_in : ∀ s : String, fd ++ [s] ≠ input := fun s h =>
    (not_present_child_of_not_present hWF hne hfd s) (h ▸ hin)
  rw [anim_ops_eq, applyOps_append, applyOps_pair]
  have hframe : ∀ i, i < n →
      getAt (applyOp (applyOp (applyOps fs (FsOp.mkdirOp fd ::
          (List.range n).map fun i => FsOp.write (fd ++ [frameName i]) (cs i)))
        (.write (fd ++ ["meta.txt"]) meta)) (.removeOp input)) (fd ++ [frameName i])
        = some (cs i) := by
    intro i hi
    rw [getAt_applyOp_removeOp, if_neg (hchild_ne_in _), getAt_applyOp_write,
      if_neg (fun h => frameName_ne_meta i (concat_inj_right h))]
    exact staged_getAt_frame fs fd cs n i hi
  have hmeta :
      getAt (applyOp (applyOp (applyOps fs (FsOp.mkdirOp fd ::
          (List.range n).map fun i => FsOp.write (fd ++ [frameName i]) (cs i)))
        (.write (fd ++ ["meta.txt"]) meta)) (.removeOp input)) (fd ++ ["meta.txt"])
        = some meta := by
    rw [getAt_applyOp_removeOp, if_neg (hchild_ne_in _), getAt_applyOp_write, if_pos rfl]
  have hmem : ∀ s : String,
      (s ∈ childrenOf (applyOp (applyOp (applyOps fs (FsOp.mkdirOp fd ::
          (List.range n).map fun i => FsOp.write (fd ++ [frameName i]) (cs i)))
        (.write (fd ++ ["meta.txt"]) meta)) (.removeOp input)) fd
        ↔ (s = "meta.txt" ∨ ∃ i, i < n ∧ s = frameName i)) := by
    intro s
    rw [mem_childrenOf, ← getAt_isSome_iff]
    constructor
    · intro h
      by_contra hno
      push_neg at hno
      rw [getAt_applyOp_removeOp, if_neg (hchild_ne_in _), getAt_applyOp_write,
        if_neg (fun h2 => hno.1 (concat_inj_right h2)),
        staged_getAt_other fs fd cs n _ (fun i hi he => hno.2 i hi (concat_inj_right he)),
        if_neg concat_ne_self,
        getAt_eq_none fs _ (not_present_child_of_not_present hWF hne hfd s)] at h
      simp at h
    · rintro (rfl | ⟨i, hi, rfl⟩)
      · rw [hmeta]
        rfl
      · rw [hframe i hi]
        rfl
  have hkeys : (((applyOp (applyOp (applyOps fs (FsOp.mkdirOp fd ::
      (List.range n).map fun i => FsOp.write (fd ++ [frameName i]) (cs i)))
        (.write (fd ++ ["meta.txt"]) meta)) (.removeOp input))).map Prod.fst).Nodup :=
    nodupKeys_applyOp_removeOp _ _
      (nodupKeys_applyOp_write _ _ _ (staged_nodupKeys fs fd cs n hWF.1 hfd))
  refine ⟨hframe, hmeta, ?_, hmem, ?_⟩
  · rw [getAt_applyOp_removeOp, if_pos rfl]
  · have hnodup := childrenOf_nodup hkeys fd
    have htarget : ("meta.txt" :: (List.range n).map frameName).Nodup := by
      rw [List.nodup_cons]
      refine ⟨?_, List.Nodup.map (fun a b h => frameName_inj h) (List.nodup_range n)⟩
      rw [List.mem_map]
      rintro ⟨i, _, hi⟩
      exact frameName_ne_meta i hi
    have hperm : List.Perm
        (childrenOf (applyOp (applyOp (applyOps fs (FsOp.mkdirOp fd ::
          (List.range n).map fun i => FsOp.write (fd ++ [frameName i]) (cs i)))
          (.write (fd ++ ["meta.txt"]) meta)) (.removeOp input)) fd)
        ("meta.txt" :: (List.range n).map frameName) := by
      rw [List.perm_ext_iff_of_nodup hnodup htarget]
      intro s
      rw [hmem s]
      simp [List.mem_map, eq_comm]
    rw [List.Perm.length_eq hperm]
    simp

/-! ## Lemmas: result shapes of the converters -/

lemma static_cases (fs : FS) (p : FPath) :
    convert_static_image fs p = ⟨[], .done⟩ ∨ convert_static_image fs p = ⟨[], .raised⟩ ∨
    (∃ img, convert_static_image fs p = ⟨[.write p (pngOf img)], .done⟩) ∨
    (∃ q img, convert_static_image fs p = ⟨[.write q (pngOf img), .removeOp p], .done⟩) := by
  simp only [convert_static_image]
  by_cases h1 : (suffixLower p = ".png" ∧ is_badge_ready_png fs p = true)
  · rw [if_pos h1]
    exact Or.inl rfl
  · rw [if_neg h1]
    cases himg : imOpen fs p with
    | none => exact Or.inr (Or.inl rfl)
    | some d =>
      dsimp only
      by_cases h2 : suffixLower p ≠ ".png"
      · rw [if_pos h2]
        exact Or.inr (Or.inr (Or.inr ⟨_, _, rfl⟩))
      · rw [if_neg h2]
        exact Or.inr (Or.inr (Or.inl ⟨_, rfl⟩))

lemma gif_cases (fs : FS) (p : FPath) :
    convert_gif fs p = convert_static_image fs p ∨ convert_gif fs p = ⟨[], .raised⟩ ∨
    (∃ fd cs n meta, convert_gif fs p = ⟨anim_ops fd cs n meta p, .done⟩) := by
  simp only [convert_gif]
  cases himg : imOpen fs p with
  | none => exact Or.inr (Or.inl rfl)
  | some d =>
    dsimp only
    by_cases h : d.nFramesAttr.getD 1 ≤ 1
    · rw [if_pos h]
      exact Or.inl rfl
    · rw [if_neg h]
      exact Or.inr (Or.inr ⟨_, _, _, _, rfl⟩)

lemma video_cases (env : Env) (fs : FS) (p : FPath) :
    convert_video env fs p = ⟨[], .done⟩ ∨
    (∃ fd, convert_video env fs p = ⟨[.mkdirOp fd], .raised⟩) ∨
    (∃ fd cs n meta, convert_video env fs p = ⟨anim_ops fd cs n meta p, .done⟩) := by
  simp only [convert_video]
  by_cases h1 : (env.ffmpeg = false ∨ env.ffprobe = false)
  · rw [if_pos h1]
    exact Or.inl rfl
  · rw [if_neg h1]
    by_cases h2 : targetFps (videoFps (vdataOf fs p)) = 0
    · rw [if_pos h2]
      exact Or.inr (Or.inl ⟨_, rfl⟩)
    · rw [if_neg h2]
      cases hrun : (vdataOf fs p).ffmpegRun with
      | error e => dsimp only; exact Or.inr (Or.inl ⟨_, rfl⟩)
      | ok m => dsimp only; exact Or.inr (Or.inr ⟨_, _, _, _, rfl⟩)

lemma process_file_cases (env : Env) (fs : FS) (p : FPath) :
    process_file env fs p = ⟨[], .done⟩ ∨
    process_file env fs p = convert_gif fs p ∨
    process_file env fs p = convert_video env fs p ∨
    process_file env fs p = convert_static_image fs p := by
  simp only [process_file]
  by_cases h1 : suffixLower p ∈ SUPPORTED_GIFS
  · rw [if_pos h1]
    exact Or.inr (Or.inl rfl)
  · rw [if_neg h1]
    by_cases h2 : suffixLower p ∈ SUPPORTED_VIDEOS
    · rw [if_pos h2]
      exact Or.inr (Or.inr (Or.inl rfl))
    · rw [if_neg h2]
      by_cases h3 : suffixLower p ∈ SUPPORTED_IMAGES
      · rw [if_pos h3]
        exact Or.inr (Or.inr (Or.inr rfl))
      · rw [if_neg h3]
        exact Or.inl rfl

lemma anim_ops_concat (fd : FPath) (cs : Nat → Content) (n : Nat) (meta : Content)
    (input : FPath) :
    anim_ops fd cs n meta input
      = (FsOp.mkdirOp fd :: (((List.range n).map fun i => FsOp.write (fd ++ [frameName i]) (cs i))
          ++ [FsOp.write (fd ++ ["meta.txt"]) meta])) ++ [FsOp.removeOp input] := by
  unfold anim_ops
  simp

lemma anim_ops_front_writes (fd : FPath) (cs : Nat → Content) (n : Nat) (meta : Content) :
    ∀ op ∈ FsOp.mkdirOp fd :: (((List.range n).map fun i =>
        FsOp.write (fd ++ [frameName i]) (cs i)) ++ [FsOp.write (fd ++ ["meta.txt"]) meta]),
      isWrite op = true := by
  intro op hop
  rcases List.mem_cons.1 hop with rfl | hop2
  · rfl
  · rcases List.mem_append.1 hop2 with hop3 | hop4
    · rw [List.mem_map] at hop3
      obtain ⟨i, _, rfl⟩ := hop3
      rfl
    · rcases List.mem_singleton.1 hop4 with rfl
      rfl

/-- Every trace of `process_file` either ends with (exactly one) removal of
the source, preceded only by creations, or contains no removal at all. -/
lemma process_file_shape (env : Env) (fs : FS) (p : FPath) :
    (∃ ws, (process_file env fs p).ops = ws ++ [FsOp.removeOp p] ∧
      (∀ op ∈ ws, isWrite op = true) ∧ (process_file env fs p).outcome = .done) ∨
    (∀ op ∈ (process_file env fs p).ops, isWrite op = true) := by
  have hstatic : ∀ r : CResult, r = convert_static_image fs p →
      (∃ ws, r.ops = ws ++ [FsOp.removeOp p] ∧
        (∀ op ∈ ws, isWrite op = true) ∧ r.outcome = .done) ∨
      (∀ op ∈ r.ops, isWrite op = true) := by
    rintro r rfl
    rcases static_cases fs p with h | h | ⟨c, h⟩ | ⟨q, c, h⟩ <;> rw [h]
    · exact Or.inr (by intro op hop; simp at hop)
    · exact Or.inr (by intro op hop; simp at hop)
    · refine Or.inr ?_
      intro op hop
      rcases List.mem_singleton.1 hop with rfl
      rfl
    · refine Or.inl ⟨[.write q (pngOf c)], rfl, ?_, rfl⟩
      intro op hop
      rcases List.mem_singleton.1 hop with rfl
      rfl
  have hanim : ∀ (r : CResult) fd cs n meta, r = ⟨anim_ops fd cs n meta p, .done⟩ →
      (∃ ws, r.ops = ws ++ [FsOp.removeOp p] ∧
        (∀ op ∈ ws, isWrite op = true) ∧ r.outcome = .done) := by
    rintro r fd cs n meta rfl
    exact ⟨_, anim_ops_concat fd cs n meta p, anim_ops_front_writes fd cs n meta, rfl⟩
  rcases process_file_cases env fs p with h | h | h | h
  · rw [h]
    exact Or.inr (by intro op hop; simp at hop)
  · rcases gif_cases fs p with h2 | h2 | ⟨fd, cs, n, meta, h2⟩
    · exact hstatic _ (h.trans h2)
    · rw [h, h2]
      exact Or.inr (by intro op hop; simp at hop)
    · exact Or.inl (hanim _ fd cs n meta (h.trans h2))
  · rcases video_cases env fs p with h2 | h2 | ⟨fd, cs, n, meta, h2⟩
    · rw [h, h2]
      exact Or.inr (by intro op hop; simp at hop)
    · obtain ⟨fd, h2⟩ := h2
      rw [h, h2]
      refine Or.inr ?_
      intro op hop
      rcases List.mem_singleton.1 hop with rfl
      rfl
    · exact Or.inl (hanim _ fd cs n meta (h.trans h2))
  · exact hstatic _ h

/-! ## Lemmas: decoding, routing and numeric helpers -/

lemma imOpen_inv {fs : FS} {p : FPath} {d : ImgData} (h : imOpen fs p = some d) :
    getAt fs p = some (.image d) := by
  unfold imOpen at h
  cases hg : getAt fs p with
  | none => rw [hg] at h; cases h
  | some c =>
    cases c with
    | image d2 =>
      rw [hg] at h
      have h2 : d2 = d := Option.some.inj h
      subst h2
      rfl
    | video vd => rw [hg] at h; cases h
    | corruptData => rw [hg] at h; cases h
    | metaRec fc dm => rw [hg] at h; cases h
    | dirMark => rw [hg] at h; cases h
    | blob => rw [hg] at h; cases h

lemma is_badge_ready_of_open_none {fs : FS} {p : FPath} (h : imOpen fs p = none) :
    is_badge_ready_png fs p = false := by
  unfold is_badge_ready_png
  rw [h]

lemma corrupt_raises (fs : FS) (p : FPath) (h : imOpen fs p = none) :
    convert_static_image fs p = ⟨[], .raised⟩ := by
  simp only [convert_static_image]
  rw [if_neg (by
    rintro ⟨-, h2⟩
    rw [is_badge_ready_of_open_none h] at h2
    exact Bool.false_ne_true h2), h]

lemma suffixLower_concat (pl : FPath) (e : String) :
    suffixLower (pl ++ [e]) = strLower (splitext e).2 := by
  unfold suffixLower
  rw [List.getLastD_concat]

lemma static_ext_not_gif_video {s : String} (h : s ∈ SUPPORTED_IMAGES) :
    s ∉ SUPPORTED_GIFS ∧ s ∉ SUPPORTED_VIDEOS := by
  unfold SUPPORTED_IMAGES at h
  simp only [List.mem_cons, List.mem_singleton, List.not_mem_nil, or_false] at h
  rcases h with rfl | rfl | rfl | rfl | rfl <;> exact ⟨by decide, by decide⟩

/-! ## Lemmas: rational truncation and fps arithmetic -/

lemma pyInt_of_nonneg {q : ℚ} (h : 0 ≤ q) : pyInt q = ⌊q⌋ := by
  unfold pyInt
  rw [if_neg (not_lt.2 h)]

lemma lbScale_nonneg (img : Img) (tw th : Nat) : 0 ≤ lbScale img tw th := by
  unfold lbScale
  apply le_min <;> positivity

lemma streamsFps_nonneg {streams : List StreamInfo} {q : ℚ}
    (hs : streamsFps streams = .ok q) : 0 ≤ q := by
  unfold streamsFps at hs
  cases hf : streams.find? fun st => decide (st.codec_type = "video") with
  | none =>
    rw [hf] at hs
    dsimp only at hs
    rw [← Except.ok.inj hs]
    norm_num
  | some st =>
    rw [hf] at hs
    dsimp only at hs
    cases hr : st.r_frame_rate with
    | none =>
      rw [hr] at hs
      dsimp only at hs
      rw [← Except.ok.inj hs]
      norm_num
    | some nd =>
      obtain ⟨num, den⟩ := nd
      rw [hr] at hs
      dsimp only at hs
      by_cases hd : den = 0
      · rw [if_pos hd] at hs
        cases hs
      · rw [if_neg hd] at hs
        rw [← Except.ok.inj hs]
        positivity

lemma videoFps_nonneg (vd : VideoData) : 0 ≤ videoFps vd := by
  unfold videoFps
  cases hp : vd.probe with
  | error e => dsimp only; norm_num
  | ok streams =>
    dsimp only
    cases hs : streamsFps streams with
    | error e => dsimp only; norm_num
    | ok q => dsimp only; exact streamsFps_nonneg hs

lemma targetFps_pos (fps : ℚ) (h0 : 0 ≤ fps) (hne : targetFps fps ≠ 0) : 0 < targetFps fps := by
  have hle : 0 ≤ targetFps fps := le_min h0 (by norm_num)
  exact lt_of_le_of_ne hle (Ne.symm hne)

lemma videoDelay_pos (fps : ℚ) (h0 : 0 ≤ fps) (hne : targetFps fps ≠ 0) :
    0 < videoDelay fps := by
  unfold videoDelay
  have ht := targetFps_pos fps h0 hne
  have h15 : targetFps fps ≤ 15 := min_le_right _ _
  have h1 : (1 : ℚ) ≤ 1000 / targetFps fps := by
    rw [le_div_iff ht]
    linarith
  rw [pyInt_of_nonneg (by positivity)]
  have h2 : (1 : ℤ) ≤ ⌊(1000 : ℚ) / targetFps fps⌋ := Int.le_floor.2 (by exact_mod_cast h1)
  omega

lemma gifDelay_pos (d : ImgData) : 0 < gifDelay d := by
  unfold gifDelay
  by_cases h : d.duration.getD 100 = 0
  · rw [if_pos h]
    norm_num
  · rw [if_neg h]
    omega

/-! ## Lemmas: positions of metadata writes inside traces -/

lemma static_no_meta (fs : FS) (p : FPath) (k : Nat) (q : FPath) (fc : Nat) (dm : ℤ) :
    (convert_static_image fs p).ops.get? k ≠ some (.write q (.metaRec fc dm)) := by
  intro hk
  rcases static_cases fs p with h | h | ⟨img, h⟩ | ⟨q2, img, h⟩
  · rw [h] at hk
    simp at hk
  · rw [h] at hk
    simp at hk
  · rw [h] at hk
    rcases k with _ | _ | k <;> simp [pngOf] at hk
  · rw [h] at hk
    rcases k with _ | _ | _ | k <;> simp [pngOf] at hk

lemma anim_take_meta (fd : FPath) (cs : Nat → Content) (n : Nat) (meta : Content)
    (input : FPath) :
    (anim_ops fd cs n meta input).take (n + 1)
      = FsOp.mkdirOp fd :: (List.range n).map fun i => FsOp.write (fd ++ [frameName i]) (cs i) := by
  unfold anim_ops
  rw [List.take_succ_cons]
  congr 1
  exact List.take_left' (by simp)

lemma anim_get?_meta (fd : FPath) (cs : Nat → Content) (n : Nat) (meta : Content)
    (input : FPath) (k : Nat) (q : FPath) (fc : Nat) (dm : ℤ)
    (hcs : ∀ i fc2 dm2, cs i ≠ .metaRec fc2 dm2)
    (hk : (anim_ops fd cs n meta input).get? k = some (.write q (.metaRec fc dm))) :
    k = n + 1 ∧ q = fd ++ ["meta.txt"] ∧ meta = Content.metaRec fc dm := by
  unfold anim_ops at hk
  cases k with
  | zero => simp at hk
  | succ j =>
    rw [List.get?_cons_succ] at hk
    by_cases hj : j < n
    · rw [List.get?_append (by simp [hj]), List.get?_map, List.get?_range hj] at hk
      simp at hk
      exact absurd hk.2 (hcs j fc dm)
    · rw [List.get?_append_right (by simp; omega)] at hk
      simp only [List.length_map, List.length_range] at hk
      rcases heq : j - n with _ | j2
      · rw [heq] at hk
        simp at hk
        exact ⟨by omega, hk.1.symm, hk.2⟩
      · rw [heq] at hk
        rcases j2 with _ | j3
        · simp at hk
        · simp at hk

/-! ## Lemmas: letterbox geometry -/

lemma letterbox_px_outside (img : Img) (tw th x y : Nat)
    (h : x < lbOx img tw th ∨ lbOx img tw th + lbW img tw th ≤ x ∨
      y < lbOy img tw th ∨ lbOy img tw th + lbH img tw th ≤ y) :
    (letterbox img tw th).px x y = (0, 0, 0) := by
  simp only [letterbox]
  rw [if_neg ?_]
  rintro ⟨h1, h2, h3, h4⟩
  omega

lemma lbW_le (img : Img) (tw th : Nat) (hw : 0 < img.w) : lbW img tw th ≤ tw := by
  unfold lbW
  have hnn : (0 : ℚ) ≤ (img.w : ℚ) * lbScale img tw th :=
    mul_nonneg (Nat.cast_nonneg _) (lbScale_nonneg img tw th)
  rw [pyInt_of_nonneg hnn, Int.toNat_le]
  have hle : (img.w : ℚ) * lbScale img tw th ≤ tw := by
    have h1 : lbScale img tw th ≤ (tw : ℚ) / (img.w : ℚ) := min_le_left _ _
    have h2 : (img.w : ℚ) * lbScale img tw th ≤ (img.w : ℚ) * ((tw : ℚ) / (img.w : ℚ)) :=
      mul_le_mul_of_nonneg_left h1 (Nat.cast_nonneg _)
    have h3 : (img.w : ℚ) * ((tw : ℚ) / (img.w : ℚ)) = tw := by
      field_simp
    rw [h3] at h2
    exact h2
  calc ⌊(img.w : ℚ) * lbScale img tw th⌋ ≤ ⌊(tw : ℚ)⌋ := Int.floor_le_floor hle
    _ = tw := Int.floor_natCast tw

lemma lbH_le (img : Img) (tw th : Nat) (hh : 0 < img.h) : lbH img tw th ≤ th := by
  unfold lbH
  have hnn : (0 : ℚ) ≤ (img.h : ℚ) * lbScale img tw th :=
    mul_nonneg (Nat.cast_nonneg _) (lbScale_nonneg img tw th)
  rw [pyInt_of_nonneg hnn, Int.toNat_le]
  have hle : (img.h : ℚ) * lbScale img tw th ≤ th := by
    have h1 : lbScale img tw th ≤ (th : ℚ) / (img.h : ℚ) := min_le_right _ _
    have h2 : (img.h : ℚ) * lbScale img tw th ≤ (img.h : ℚ) * ((th : ℚ) / (img.h : ℚ)) :=
      mul_le_mul_of_nonneg_left h1 (Nat.cast_nonneg _)
    have h3 : (img.h : ℚ) * ((th : ℚ) / (img.h : ℚ)) = th := by
      field_simp
    rw [h3] at h2
    exact h2
  calc ⌊(img.h : ℚ) * lbScale img tw th⌋ ≤ ⌊(th : ℚ)⌋ := Int.floor_le_floor hle
    _ = th := Int.floor_natCast th

lemma lbScale_ge_one (img : Img) (tw th : Nat) (hw : 0 < img.w) (hh : 0 < img.h)
    (h1 : img.w ≤ tw) (h2 : img.h ≤ th) : (1 : ℚ) ≤ lbScale img tw th := by
  unfold lbScale
  apply le_min
  · rw [le_div_iff (by exact_mod_cast hw)]
    rw [one_mul]
    exact_mod_cast h1
  · rw [le_div_iff (by exact_mod_cast hh)]
    rw [one_mul]
    exact_mod_cast h2

lemma lbW_ge (img : Img) (tw th : Nat) (hw : 0 < img.w) (hh : 0 < img.h)
    (h1 : img.w ≤ tw) (h2 : img.h ≤ th) : img.w ≤ lbW img tw th := by
  unfold lbW
  have hge : (img.w : ℚ) ≤ (img.w : ℚ) * lbScale img tw th :=
    le_mul_of_one_le_right (Nat.cast_nonneg _) (lbScale_ge_one img tw th hw hh h1 h2)
  rw [pyInt_of_nonneg (mul_nonneg (Nat.cast_nonneg _) (lbScale_nonneg _ _ _))]
  have hfl : (img.w : ℤ) ≤ ⌊(img.w : ℚ) * lbScale img tw th⌋ := by
    apply Int.le_floor.2
    push_cast
    exact hge
  have h0 : (0 : ℤ) ≤ ⌊(img.w : ℚ) * lbScale img tw th⌋ :=
    le_trans (by exact_mod_cast Nat.zero_le img.w) hfl
  exact (Int.le_toNat h0).2 hfl

lemma lbH_ge (img : Img) (tw th : Nat) (hw : 0 < img.w) (hh : 0 < img.h)
    (h1 : img.w ≤ tw) (h2 : img.h ≤ th) : img.h ≤ lbH img tw th := by
  unfold lbH
  have hge : (img.h : ℚ) ≤ (img.h : ℚ) * lbScale img tw th :=
    le_mul_of_one_le_right (Nat.cast_nonneg _) (lbScale_ge_one img tw th hw hh h1 h2)
  rw [pyInt_of_nonneg (mul_nonneg (Nat.cast_nonneg _) (lbScale_nonneg _ _ _))]
  have hfl : (img.h : ℤ) ≤ ⌊(img.h : ℚ) * lbScale img tw th⌋ := by
    apply Int.le_floor.2
    push_cast
    exact hge
  have h0 : (0 : ℤ) ≤ ⌊(img.h : ℚ) * lbScale img tw th⌋ :=
    le_trans (by exact_mod_cast Nat.zero_le img.h) hfl
  exact (Int.le_toNat h0).2 hfl

/-! ## Claim theorems -/

/-- C8: the naming resolver returns the base path itself when nothing exists
there; otherwise the candidate with the smallest suffix `_N`, `N ≥ 1`
(inserted before the extension by `unique_path`, appended to the name by
`unique_dir`), at which nothing exists.  The returned path never exists at
call time.  In the model the resolver is a pure function of the filesystem
value, so it mutates nothing and two consecutive calls over an unchanged
filesystem agree definitionally; the final two conjuncts record this. -/
theorem C8_naming_resolver (fs : FS) (p : FPath) :
    (¬ present fs p → unique_path fs p = p ∧ unique_dir fs p = p) ∧
    (present fs p →
      (∃ n, 1 ≤ n ∧ unique_path fs p = pathCand p n ∧ ¬ present fs (pathCand p n) ∧
        ∀ m, 1 ≤ m → m < n → present fs (pathCand p m)) ∧
      (∃ n, 1 ≤ n ∧ unique_dir fs p = dirCand p n ∧ ¬ present fs (dirCand p n) ∧
        ∀ m, 1 ≤ m → m < n → present fs (dirCand p m))) ∧
    ¬ present fs (unique_path fs p) ∧ ¬ present fs (unique_dir fs p) ∧
    unique_path fs p = unique_path fs p ∧ unique_dir fs p = unique_dir fs p :=
  ⟨fun h => ⟨unique_path_id fs p h, unique_dir_id fs p h⟩,
   fun h => ⟨unique_path_min fs p h, unique_dir_min fs p h⟩,
   unique_path_free fs p, unique_dir_free fs p, rfl, rfl⟩

/-- Witness for C8: with `a.png` and `a_1.png` both present, the resolver is
called on an existing base and its result does not exist. -/
theorem C8_witness :
    present fsNames ["a.png"] ∧ ¬ present fsNames (unique_path fsNames ["a.png"]) :=
  ⟨by decide, (C8_naming_resolver fsNames ["a.png"]).2.2.1⟩

/-- C1: in every trace produced by a converter (static image, GIF, video, as
routed by `process_file`), the removal of the source comes only after every
creation operation of the conversion: a trace that raised never removed the
source, and any prefix (interruption point) of a trace that already contains
the source removal contains every write of the whole trace. -/
theorem C1_source_removed_last (env : Env) (fs : FS) (p : FPath) (k : Nat) :
    ((process_file env fs p).outcome = .raised →
      FsOp.removeOp p ∉ (process_file env fs p).ops) ∧
    (FsOp.removeOp p ∈ (process_file env fs p).ops.take k →
      ∀ op ∈ (process_file env fs p).ops, isWrite op = true →
        op ∈ (process_file env fs p).ops.take k) := by
  rcases process_file_shape env fs p with ⟨ws, hops, hws, hout⟩ | hall
  · constructor
    · intro hr
      rw [hout] at hr
      cases hr
    · intro hmem op hop hw
      rw [hops] at hmem hop ⊢
      by_cases hk : k ≤ ws.length
      · exfalso
        rw [List.take_append_eq_append_take, Nat.sub_eq_zero_of_le hk] at hmem
        simp only [List.take_zero, List.append_nil] at hmem
        have hwr := hws _ (List.mem_of_mem_take hmem)
        simp [isWrite] at hwr
      · rw [List.take_all_of_le
          (by simp only [List.length_append, List.length_singleton]; omega)]
        exact hop
  · constructor
    · intro _ hmem
      have hwr := hall _ hmem
      simp [isWrite] at hwr
    · intro hmem
      exfalso
      have hwr := hall _ (List.mem_of_mem_take hmem)
      simp [isWrite] at hwr

/-- Witness for C1: a corrupt static image raises, and the theorem yields
that its trace never removed the source. -/
theorem C1_witness :
    (process_file envAll fsCorrupt ["pl", "a.jpg"]).outcome = .raised ∧
    FsOp.removeOp ["pl", "a.jpg"] ∉ (process_file envAll fsCorrupt ["pl", "a.jpg"]).ops :=
  ⟨rfl, (C1_source_removed_last envAll fsCorrupt ["pl", "a.jpg"] 0).1 rfl⟩

/-- C9: on a file with extension `.png` whose decoded content is already a
canonical 320x240 PNG, the static converter performs no operation and
returns normally, the filesystem is unchanged, and a second run on the
resulting filesystem is the same no-op. -/
theorem C9_idempotent (fs : FS) (p : FPath) (d : ImgData)
    (hext : suffixLower p = ".png") (hc : getAt fs p = some (.image d))
    (hfmt : d.format = "PNG") (hw : d.width = DISPLAY_WIDTH) (hh : d.height = DISPLAY_HEIGHT) :
    convert_static_image fs p = ⟨[], .done⟩ ∧
    applyOps fs (convert_static_image fs p).ops = fs ∧
    convert_static_image (applyOps fs (convert_static_image fs p).ops) p = ⟨[], .done⟩ := by
  have hopen : imOpen fs p = some d := by
    unfold imOpen
    rw [hc]
  have hready : is_badge_ready_png fs p = true := by
    unfold is_badge_ready_png
    rw [hopen]
    exact decide_eq_true ⟨hfmt, hw, hh⟩
  have h1 : convert_static_image fs p = ⟨[], .done⟩ := by
    simp only [convert_static_image]
    rw [if_pos ⟨hext, hready⟩]
  refine ⟨h1, ?_, ?_⟩
  · rw [h1]
    rfl
  · rw [h1]
    exact h1

/-- Witness for C9 on a canonical PNG at `pl/img.png`. -/
theorem C9_witness :
    suffixLower ["pl", "img.png"] = ".png" ∧
    getAt fsReady ["pl", "img.png"] = some (.image demoReadyPng) ∧
    convert_static_image fsReady ["pl", "img.png"] = ⟨[], .done⟩ :=
  ⟨rfl, rfl, (C9_idempotent fsReady ["pl", "img.png"] demoReadyPng rfl rfl rfl rfl rfl).1⟩

/-- C10: the static converter picks its write mode from the lowercased
extension alone.  A `.png`-named decodable input that is not canonical
(whatever its decoded format, e.g. JPEG data under a `.png` name) is
re-encoded and overwritten in place: the trace is exactly one write at the
original path, with no unique-name resolution and no removal.  Any other
extension writes one new uniquely-named `.png` file (free at call time) and
then removes the original. -/
theorem C10_extension_dispatch (fs : FS) (p : FPath) (d : ImgData)
    (hopen : imOpen fs p = some d) :
    (suffixLower p = ".png" →
      ¬(d.format = "PNG" ∧ d.width = DISPLAY_WIDTH ∧ d.height = DISPLAY_HEIGHT) →
      convert_static_image fs p =
        ⟨[.write p (pngOf (letterbox (frameImg d 0) DISPLAY_WIDTH DISPLAY_HEIGHT))], .done⟩) ∧
    (suffixLower p ≠ ".png" →
      convert_static_image fs p =
        ⟨[.write (unique_path fs (p.dropLast ++ [(splitext (p.getLastD "")).1 ++ ".png"]))
            (pngOf (letterbox (frameImg d 0) DISPLAY_WIDTH DISPLAY_HEIGHT)),
          .removeOp p], .done⟩ ∧
      ¬ present fs (unique_path fs (p.dropLast ++ [(splitext (p.getLastD "")).1 ++ ".png"]))) := by
  constructor
  · intro hext hnc
    have hready : is_badge_ready_png fs p = false := by
      unfold is_badge_ready_png
      rw [hopen]
      exact decide_eq_false hnc
    simp only [convert_static_image]
    rw [if_neg (by
      rintro ⟨-, h2⟩
      rw [hready] at h2
      exact Bool.false_ne_true h2), hopen]
    dsimp only
    rw [if_neg (fun hne => hne hext)]
  · intro hext
    refine ⟨?_, unique_path_free fs _⟩
    simp only [convert_static_image]
    rw [if_neg (fun h => hext h.1), hopen]
    dsimp only
    rw [if_pos hext]

/-- Witness for C10 on a JPEG input: new unique `.png` written, original
removed. -/
theorem C10_witness :
    imOpen fsJpeg ["pl", "photo.jpg"] = some demoJpeg ∧
    suffixLower ["pl", "photo.jpg"] ≠ ".png" ∧
    convert_static_image fsJpeg ["pl", "photo.jpg"] =
      ⟨[.write (unique_path fsJpeg ((["pl", "photo.jpg"] : FPath).dropLast ++
          [(splitext ((["pl", "photo.jpg"] : FPath).getLastD "")).1 ++ ".png"]))
          (pngOf (letterbox (frameImg demoJpeg 0) DISPLAY_WIDTH DISPLAY_HEIGHT)),
        .removeOp ["pl", "photo.jpg"]], .done⟩ :=
  ⟨rfl, by decide,
   ((C10_extension_dispatch fsJpeg ["pl", "photo.jpg"] demoJpeg rfl).2 (by decide)).1⟩

/-- C2 counterexample: `pl/` holds a corrupt `a.jpg` followed by a
convertible `b.jpg`.  The claim requires the corrupt item to be reported and
skipped with the batch continuing (so `b.jpg` would be converted); instead
the run performs no operation at all and ends raised: the uncaught decode
exception aborts the playlist loop before `b.jpg` is reached. -/
theorem C2_counterexample :
    (process_playlist envAll fsCorrupt ["pl"]).ops = [] ∧
    (process_playlist envAll fsCorrupt ["pl"]).outcome = .raised :=
  ⟨rfl, rfl⟩

/-- C2 (amended): on an unreadable static-image source the converter writes
nothing and does not remove the source, but it raises, and the uncaught
exception stops the playlist loop: entries after the failing one are not
processed (the run aborts instead of continuing). -/
theorem C2_corrupt_aborts (env : Env) (pl : FPath) (fs : FS) (e : String)
    (rest : List String) (hdot : startsDot e = false)
    (hdir : isDirAt fs (pl ++ [e]) = false)
    (himg : strLower (splitext e).2 ∈ SUPPORTED_IMAGES)
    (hopen : imOpen fs (pl ++ [e]) = none) :
    convert_static_image fs (pl ++ [e]) = ⟨[], .raised⟩ ∧
    runEntries env pl (e :: rest) fs = ⟨[], .raised⟩ := by
  obtain ⟨hng, hnv⟩ := static_ext_not_gif_video himg
  have hpf : process_file env fs (pl ++ [e]) = ⟨[], .raised⟩ := by
    simp only [process_file]
    rw [if_neg (by rw [suffixLower_concat]; exact hng),
      if_neg (by rw [suffixLower_concat]; exact hnv),
      if_pos (by rw [suffixLower_concat]; exact himg)]
    exact corrupt_raises fs (pl ++ [e]) hopen
  refine ⟨corrupt_raises fs (pl ++ [e]) hopen, ?_⟩
  simp only [runEntries]
  rw [if_neg (by rw [hdot]; exact Bool.false_ne_true),
    if_neg (by rw [hdir]; exact Bool.false_ne_true),
    if_pos (by
      unfold ALL_SUPPORTED
      exact List.mem_append_left _ (List.mem_append_left _ himg)), hpf]

/-- Witness for C2 at the concrete corrupt playlist. -/
theorem C2_witness :
    imOpen fsCorrupt ["pl", "a.jpg"] = none ∧
    runEntries envAll ["pl"] ["a.jpg", "b.jpg"] fsCorrupt = ⟨[], .raised⟩ :=
  ⟨rfl, (C2_corrupt_aborts envAll ["pl"] fsCorrupt "a.jpg" ["b.jpg"]
    rfl rfl (by decide) rfl).2⟩

/-- C5 counterexample: a present and valid library root that contains no
playlist directories.  The claim requires exit code zero for every valid
root, but `main` exits 1 when no playlists are found. -/
theorem C5_counterexample : (main envAll ([] : FS) true).exit_code = 1 := rfl

/-- C5 (amended): the exit code is zero iff the root is valid, at least one
playlist directory exists, and no item conversion raised an uncaught
exception; an invalid root exits 1; handled per-item failures still exit
zero (concretely: a video item skipped because the external tools are
missing). -/
theorem C5_exit_code (env : Env) (fs : FS) (ok : Bool) :
    ((main env fs ok).exit_code = 0 ↔
      ok = true ∧ rootPlaylists fs ≠ [] ∧
        (runPlaylists env (rootPlaylists fs) fs).outcome = .done) ∧
    (ok = false → (main env fs ok).exit_code = 1) ∧
    (main envNone fsVideo true).exit_code = 0 := by
  refine ⟨?_, ?_, rfl⟩
  · simp only [main]
    cases ok with
    | false => simp
    | true =>
      rw [if_neg (by simp)]
      by_cases hpl : rootPlaylists fs = []
      · rw [if_pos hpl]
        simp [hpl]
      · rw [if_neg hpl]
        cases ho : (runPlaylists env (rootPlaylists fs) fs).outcome with
        | done => simp [hpl, ho]
        | raised => simp [hpl, ho]
  · intro h
    subst h
    rfl

/-- Witness for C5: an invalid root exits 1, via the amended theorem. -/
theorem C5_witness : (main envAll ([] : FS) false).exit_code = 1 :=
  (C5_exit_code envAll [] false).2.1 rfl

/-- C3: the geometry normalizer at targets W=320, H=240 returns an image of
exactly 320x240.  The content region has width `int(iw*scale)` and height
`int(ih*scale)` for `scale = min(320/iw, 240/ih)` (the `lbW`/`lbH` used by
`letterbox` itself), never exceeds the canvas (no cropping), upscales a
source smaller than the target, sits at the floor-centered offsets, and
every pixel outside it is pure black; a 500x500 source yields a 240x240
content region at offsets (40, 0): black bars on the left and right. -/
theorem C3_letterbox (img : Img) (hw : 0 < img.w) (hh : 0 < img.h) :
    (letterbox img DISPLAY_WIDTH DISPLAY_HEIGHT).w = 320 ∧
    (letterbox img DISPLAY_WIDTH DISPLAY_HEIGHT).h = 240 ∧
    lbW img DISPLAY_WIDTH DISPLAY_HEIGHT ≤ 320 ∧
    lbH img DISPLAY_WIDTH DISPLAY_HEIGHT ≤ 240 ∧
    lbOx img DISPLAY_WIDTH DISPLAY_HEIGHT
      = (320 - lbW img DISPLAY_WIDTH DISPLAY_HEIGHT) / 2 ∧
    lbOy img DISPLAY_WIDTH DISPLAY_HEIGHT
      = (240 - lbH img DISPLAY_WIDTH DISPLAY_HEIGHT) / 2 ∧
    (img.w ≤ 320 → img.h ≤ 240 →
      img.w ≤ lbW img DISPLAY_WIDTH DISPLAY_HEIGHT ∧
      img.h ≤ lbH img DISPLAY_WIDTH DISPLAY_HEIGHT) ∧
    (∀ x y, (x < lbOx img DISPLAY_WIDTH DISPLAY_HEIGHT ∨
        lbOx img DISPLAY_WIDTH DISPLAY_HEIGHT + lbW img DISPLAY_WIDTH DISPLAY_HEIGHT ≤ x ∨
        y < lbOy img DISPLAY_WIDTH DISPLAY_HEIGHT ∨
        lbOy img DISPLAY_WIDTH DISPLAY_HEIGHT + lbH img DISPLAY_WIDTH DISPLAY_HEIGHT ≤ y) →
      (letterbox img DISPLAY_WIDTH DISPLAY_HEIGHT).px x y = (0, 0, 0)) ∧
    (img.w = 500 → img.h = 500 →
      lbW img DISPLAY_WIDTH DISPLAY_HEIGHT = 240 ∧
      lbH img DISPLAY_WIDTH DISPLAY_HEIGHT = 240 ∧
      lbOx img DISPLAY_WIDTH DISPLAY_HEIGHT = 40 ∧
      lbOy img DISPLAY_WIDTH DISPLAY_HEIGHT = 0) := by
  refine ⟨rfl, rfl, lbW_le img _ _ hw, lbH_le img _ _ hh, rfl, rfl,
    fun h1 h2 => ⟨lbW_ge img _ _ hw hh h1 h2, lbH_ge img _ _ hw hh h1 h2⟩,
    fun x y h => letterbox_px_outside img _ _ x y h, ?_⟩
  intro hw500 hh500
  have hs : lbScale img DISPLAY_WIDTH DISPLAY_HEIGHT = 12 / 25 := by
    unfold lbScale DISPLAY_WIDTH DISPLAY_HEIGHT
    rw [hw500, hh500]
    rw [min_eq_right (by norm_num)]
    norm_num
  have h240 : lbW img DISPLAY_WIDTH DISPLAY_HEIGHT = 240 := by
    unfold lbW
    rw [hs, hw500]
    have he : ((500 : ℕ) : ℚ) * (12 / 25) = 240 := by norm_num
    rw [he, pyInt_of_nonneg (by norm_num)]
    rw [show (240 : ℚ) = ((240 : ℕ) : ℚ) by norm_num, Int.floor_natCast]
    rfl
  have h240h : lbH img DISPLAY_WIDTH DISPLAY_HEIGHT = 240 := by
    unfold lbH
    rw [hs, hh500]
    have he : ((500 : ℕ) : ℚ) * (12 / 25) = 240 := by norm_num
    rw [he, pyInt_of_nonneg (by norm_num)]
    rw [show (240 : ℚ) = ((240 : ℕ) : ℚ) by norm_num, Int.floor_natCast]
    rfl
  refine ⟨h240, h240h, ?_, ?_⟩
  · unfold lbOx
    rw [h240]
    rfl
  · unfold lbOy
    rw [h240h]
    rfl

/-- Witness for C3 on the concrete 500x500 buffer. -/
theorem C3_witness :
    0 < demoSquare.w ∧ 0 < demoSquare.h ∧
    (letterbox demoSquare DISPLAY_WIDTH DISPLAY_HEIGHT).w = 320 :=
  ⟨by decide, by decide, (C3_letterbox demoSquare (by decide) (by decide)).1⟩

/-- C4: a decoded animated image with frame count `n ≤ 1` is delegated to
the static converter.  With `n > 1` the converter uses a uniquely-named
frame directory (free at call time); afterwards that directory holds the
frame file `frame_{i:03d}.png` for every `i < n` (in source order, letterbox
of decoded frame `i`), its entries are exactly those frames plus `meta.txt`
(`n + 1` entries), and the metadata record carries `frame_count = n` and
`delay_ms` equal to the per-frame duration, with 100 substituted when the
duration is absent or zero. -/
theorem C4_gif_layout (fs : FS) (input : FPath) (d : ImgData) (n : Nat)
    (hWF : WF fs) (hopen : imOpen fs input = some d) (hn : d.nFramesAttr.getD 1 = n) :
    (n ≤ 1 → convert_gif fs input = convert_static_image fs input) ∧
    (1 < n →
      ¬ present fs (unique_dir fs (input.dropLast ++ [(splitext (input.getLastD "")).1])) ∧
      (convert_gif fs input).outcome = .done ∧
      (∀ i, i < n →
        getAt (applyOps fs (convert_gif fs input).ops)
          (unique_dir fs (input.dropLast ++ [(splitext (input.getLastD "")).1])
            ++ [frameName i])
          = some (pngOf (letterbox (frameImg d i) DISPLAY_WIDTH DISPLAY_HEIGHT))) ∧
      (∀ s, s ∈ childrenOf (applyOps fs (convert_gif fs input).ops)
          (unique_dir fs (input.dropLast ++ [(splitext (input.getLastD "")).1]))
        ↔ (s = "meta.txt" ∨ ∃ i, i < n ∧ s = frameName i)) ∧
      (childrenOf (applyOps fs (convert_gif fs input).ops)
          (unique_dir fs (input.dropLast ++ [(splitext (input.getLastD "")).1]))).length
        = n + 1 ∧
      getAt (applyOps fs (convert_gif fs input).ops)
          (unique_dir fs (input.dropLast ++ [(splitext (input.getLastD "")).1])
            ++ ["meta.txt"])
        = some (.metaRec n (gifDelay d : ℤ)) ∧
      ((d.duration = none ∨ d.duration = some 0) → gifDelay d = 100) ∧
      (∀ v, d.duration = some v → v ≠ 0 → gifDelay d = v)) := by
  constructor
  · intro hle
    simp only [convert_gif]
    rw [hopen]
    dsimp only
    rw [hn, if_pos hle]
  · intro hgt
    have hconv : convert_gif fs input
        = ⟨anim_ops (unique_dir fs (input.dropLast ++ [(splitext (input.getLastD "")).1]))
            (fun i => pngOf (letterbox (frameImg d i) DISPLAY_WIDTH DISPLAY_HEIGHT))
            n (.metaRec n (gifDelay d : ℤ)) input, .done⟩ := by
      simp only [convert_gif]
      rw [hopen]
      dsimp only
      rw [hn, if_neg (by omega)]
    have hfree := unique_dir_free fs (input.dropLast ++ [(splitext (input.getLastD "")).1])
    have hne := unique_dir_ne_nil fs (input.dropLast ++ [(splitext (input.getLastD "")).1])
      (by simp)
    have hpres := present_of_getAt (imOpen_inv hopen)
    obtain ⟨hframe, hmeta, hrem, hmem, hlen⟩ :=
      anim_state fs (unique_dir fs (input.dropLast ++ [(splitext (input.getLastD "")).1]))
        input (fun i => pngOf (letterbox (frameImg d i) DISPLAY_WIDTH DISPLAY_HEIGHT))
        n (.metaRec n (gifDelay d : ℤ)) hWF hfree hne hpres
    rw [hconv]
    refine ⟨hfree, rfl, hframe, hmem, hlen, hmeta, ?_, ?_⟩
    · rintro (hd | hd) <;> (unfold gifDelay; rw [hd]) <;> rfl
    · intro v hv hv0
      unfold gifDelay
      rw [hv]
      exact if_neg hv0

/-- Witness for C4 on the 2-frame GIF library. -/
theorem C4_witness :
    WF fsGif ∧ imOpen fsGif ["pl", "anim.gif"] = some demoGif ∧
    demoGif.nFramesAttr.getD 1 = 2 ∧
    (convert_gif fsGif ["pl", "anim.gif"]).outcome = .done :=
  ⟨by decide, rfl, rfl,
   ((C4_gif_layout fsGif ["pl", "anim.gif"] demoGif 2 (by decide) rfl rfl).2
     (by omega)).2.1⟩

/-- C7: the video converter computes `target_fps = min(source_fps, 15)` and
`delay_ms = int(1000 / target_fps)` (exactly `videoDelay`, whose definition
is that truncation — first conjunct), writes that delay into the metadata
record of the conversion, and defaults the source fps to 10 when probing
fails or reports no video stream; a 30 fps probe gives target 15 and delay
66, a failed probe gives target 10 and delay 100. -/
theorem C7_video_fps (env : Env) (fs : FS) (p : FPath) (vd : VideoData) (m : Nat)
    (henv1 : env.ffmpeg = true) (henv2 : env.ffprobe = true)
    (hget : getAt fs p = some (.video vd)) (hrun : vd.ffmpegRun = .ok m)
    (hfps : videoFps vd ≠ 0) :
    videoDelay (videoFps vd) = pyInt (1000 / min (videoFps vd) 15) ∧
    (∃ fc, FsOp.write
        (unique_dir fs (p.dropLast ++ [(splitext (p.getLastD "")).1]) ++ ["meta.txt"])
        (.metaRec fc (videoDelay (videoFps vd))) ∈ (convert_video env fs p).ops) ∧
    (vd.probe = .error () → videoFps vd = 10) ∧
    (∀ ss, vd.probe = .ok ss →
      ss.find? (fun st => decide (st.codec_type = "video")) = none → videoFps vd = 10) ∧
    (videoFps vd = 30 → targetFps (videoFps vd) = 15 ∧ videoDelay (videoFps vd) = 66) ∧
    (videoFps vd = 10 → targetFps (videoFps vd) = 10 ∧ videoDelay (videoFps vd) = 100) := by
  have hvd : vdataOf fs p = vd := by
    unfold vdataOf
    rw [hget]
  have hfpos : 0 < videoFps vd := lt_of_le_of_ne (videoFps_nonneg vd) (Ne.symm hfps)
  have htz : targetFps (videoFps vd) ≠ 0 := ne_of_gt (lt_min hfpos (by norm_num))
  refine ⟨rfl, ?_, ?_, ?_, ?_, ?_⟩
  · simp only [convert_video]
    rw [if_neg (by rw [henv1, henv2]; simp), hvd, if_neg htz, hrun]
    dsimp only
    set fd := unique_dir fs (p.dropLast ++ [(splitext (p.getLastD "")).1]) with hfd
    exact ⟨countPng (applyOps fs (FsOp.mkdirOp fd ::
        (List.range m).map fun i => FsOp.write (fd ++ [frameName i]) Content.blob)) fd,
      by simp [anim_ops]⟩
  · intro hp
    unfold videoFps
    rw [hp]
  · intro ss hp hfind
    unfold videoFps
    rw [hp]
    dsimp only
    unfold streamsFps
    rw [hfind]
  · intro h30
    have ht : targetFps (videoFps vd) = 15 := by
      unfold targetFps
      rw [h30]
      exact min_eq_right (by norm_num)
    refine ⟨ht, ?_⟩
    unfold videoDelay
    rw [ht, pyInt_of_nonneg (by norm_num)]
    exact Int.floor_eq_iff.2 ⟨by norm_num, by norm_num⟩
  · intro h10
    have ht : targetFps (videoFps vd) = 10 := by
      unfold targetFps
      rw [h10]
      exact min_eq_left (by norm_num)
    refine ⟨ht, ?_⟩
    unfold videoDelay
    rw [ht, pyInt_of_nonneg (by norm_num),
      show (1000 : ℚ) / 10 = ((100 : ℕ) : ℚ) by norm_num, Int.floor_natCast]
    rfl

/-- Witness for C7 on the probe-failure video. -/
theorem C7_witness :
    getAt fsVideo ["p", "v.mp4"] = some (.video demoVideoNoProbe) ∧
    demoVideoNoProbe.ffmpegRun = .ok 2 ∧
    targetFps (videoFps demoVideoNoProbe) = 10 ∧
    videoDelay (videoFps demoVideoNoProbe) = 100 :=
  ⟨rfl, rfl,
   ((C7_video_fps envAll fsVideo ["p", "v.mp4"] demoVideoNoProbe 2 rfl rfl rfl rfl
      (by simp [videoFps, demoVideoNoProbe])).2.2.2.2.2 rfl).1,
   ((C7_video_fps envAll fsVideo ["p", "v.mp4"] demoVideoNoProbe 2 rfl rfl rfl rfl
      (by simp [videoFps, demoVideoNoProbe])).2.2.2.2.2 rfl).2⟩

lemma gif_anim_conv (fs : FS) (p : FPath) (d : ImgData) (hopen : imOpen fs p = some d)
    (hgt : ¬ d.nFramesAttr.getD 1 ≤ 1) :
    convert_gif fs p
      = ⟨anim_ops (unique_dir fs (p.dropLast ++ [(splitext (p.getLastD "")).1]))
          (fun i => pngOf (letterbox (frameImg d i) DISPLAY_WIDTH DISPLAY_HEIGHT))
          (d.nFramesAttr.getD 1)
          (.metaRec (d.nFramesAttr.getD 1) (gifDelay d : ℤ)) p, .done⟩ := by
  simp only [convert_gif]
  rw [hopen]
  dsimp only
  rw [if_neg hgt]

lemma video_ok_conv (env : Env) (fs : FS) (p : FPath) (m : Nat)
    (henv : ¬(env.ffmpeg = false ∨ env.ffprobe = false))
    (htz : targetFps (videoFps (vdataOf fs p)) ≠ 0)
    (hrun : (vdataOf fs p).ffmpegRun = .ok m) :
    convert_video env fs p
      = ⟨anim_ops (unique_dir fs (p.dropLast ++ [(splitext (p.getLastD "")).1]))
          (fun _ => Content.blob) m
          (.metaRec
            (countPng (applyOps fs (FsOp.mkdirOp
                (unique_dir fs (p.dropLast ++ [(splitext (p.getLastD "")).1]))
              :: (List.range m).map fun i => FsOp.write
                (unique_dir fs (p.dropLast ++ [(splitext (p.getLastD "")).1]) ++ [frameName i])
                Content.blob))
              (unique_dir fs (p.dropLast ++ [(splitext (p.getLastD "")).1])))
            (videoDelay (videoFps (vdataOf fs p)))) p, .done⟩ := by
  simp only [convert_video]
  rw [if_neg henv, if_neg htz, hrun]

lemma vdata_run_inv (fs : FS) (p : FPath) (m : Nat)
    (hvid : ∀ vd m2, getAt fs p = some (.video vd) → vd.ffmpegRun = .ok m2 → 1 ≤ m2)
    (hrun : (vdataOf fs p).ffmpegRun = .ok m) : 1 ≤ m := by
  unfold vdataOf at hrun
  cases hget : getAt fs p with
  | none =>
    rw [hget] at hrun
    dsimp only at hrun
    cases hrun
  | some c =>
    cases c with
    | image d => rw [hget] at hrun; dsimp only at hrun; cases hrun
    | video vd =>
      rw [hget] at hrun
      dsimp only at hrun
      exact hvid vd m hget hrun
    | corruptData => rw [hget] at hrun; dsimp only at hrun; cases hrun
    | metaRec fc dm => rw [hget] at hrun; dsimp only at hrun; cases hrun
    | dirMark => rw [hget] at hrun; dsimp only at hrun; cases hrun
    | blob => rw [hget] at hrun; dsimp only at hrun; cases hrun

/-- C6: every metadata record written by a converter (GIF or video) carries
a positive `frame_count` equal to the number of `.png` frame files present
in the target directory in the filesystem state at the moment the record is
written (the state after the trace prefix preceding the write), and a
positive `delay_ms`.  For the video path this needs the environmental fact
that a successful transcoder run stages at least one frame. -/
theorem C6_meta_record (env : Env) (fs : FS) (p : FPath) (k : Nat) (q : FPath)
    (fc : Nat) (dm : ℤ) (hWF : WF fs)
    (hvid : ∀ vd m2, getAt fs p = some (.video vd) → vd.ffmpegRun = .ok m2 → 1 ≤ m2)
    (hk : (process_file env fs p).ops.get? k = some (.write q (.metaRec fc dm))) :
    0 < fc ∧ 0 < dm ∧
    fc = countPng (applyOps fs ((process_file env fs p).ops.take k)) q.dropLast := by
  rcases process_file_cases env fs p with h | h | h | h
  · rw [h] at hk
    simp at hk
  · -- GIF route
    rw [h] at hk ⊢
    cases hopen : imOpen fs p with
    | none =>
      have hgr : convert_gif fs p = ⟨[], .raised⟩ := by
        simp only [convert_gif]
        rw [hopen]
      rw [hgr] at hk
      simp at hk
    | some d =>
      by_cases hle : d.nFramesAttr.getD 1 ≤ 1
      · have hdel : convert_gif fs p = convert_static_image fs p := by
          simp only [convert_gif]
          rw [hopen]
          dsimp only
          rw [if_pos hle]
        rw [hdel] at hk
        exact absurd hk (static_no_meta fs p k q fc dm)
      · have hconv := gif_anim_conv fs p d hopen hle
        rw [hconv] at hk ⊢
        obtain ⟨hkval, hq, hmeta⟩ := anim_get?_meta _ _ _ _ _ k q fc dm
          (fun i fc2 dm2 => by simp [pngOf]) hk
        obtain ⟨hfc, hdm⟩ := Content.metaRec.inj hmeta
        have hfree := unique_dir_free fs (p.dropLast ++ [(splitext (p.getLastD "")).1])
        have hne := unique_dir_ne_nil fs (p.dropLast ++ [(splitext (p.getLastD "")).1])
          (by simp)
        subst hkval
        refine ⟨by omega, ?_, ?_⟩
        · rw [← hdm]
          exact_mod_cast gifDelay_pos d
        · rw [hq, List.dropLast_concat]
          show fc = countPng (applyOps fs ((anim_ops _ _ _ _ _).take _)) _
          rw [anim_take_meta,
            staged_count fs _ _ (d.nFramesAttr.getD 1) hWF hfree hne]
          omega
  · -- video route
    rw [h] at hk ⊢
    by_cases henv : (env.ffmpeg = false ∨ env.ffprobe = false)
    · have hv : convert_video env fs p = ⟨[], .done⟩ := by
        simp only [convert_video]
        rw [if_pos henv]
      rw [hv] at hk
      simp at hk
    · by_cases htz : targetFps (videoFps (vdataOf fs p)) = 0
      · have hv : convert_video env fs p
            = ⟨[.mkdirOp (unique_dir fs (p.dropLast ++ [(splitext (p.getLastD "")).1]))],
               .raised⟩ := by
          simp only [convert_video]
          rw [if_neg henv, if_pos htz]
        rw [hv] at hk
        rcases k with _ | k2 <;> simp at hk
      · cases hrun : (vdataOf fs p).ffmpegRun with
        | error e =>
          have hv : convert_video env fs p
              = ⟨[.mkdirOp (unique_dir fs (p.dropLast ++ [(splitext (p.getLastD "")).1]))],
                 .raised⟩ := by
            simp only [convert_video]
            rw [if_neg henv, if_neg htz, hrun]
          rw [hv] at hk
          rcases k with _ | k2 <;> simp at hk
        | ok m =>
          have hconv := video_ok_conv env fs p m henv htz hrun
          rw [hconv] at hk ⊢
          obtain ⟨hkval, hq, hmeta⟩ := anim_get?_meta _ _ _ _ _ k q fc dm
            (fun i fc2 dm2 => by simp) hk
          obtain ⟨hfc, hdm⟩ := Content.metaRec.inj hmeta
          have hfree := unique_dir_free fs (p.dropLast ++ [(splitext (p.getLastD "")).1])
          have hne := unique_dir_ne_nil fs (p.dropLast ++ [(splitext (p.getLastD "")).1])
            (by simp)
          have hm1 : 1 ≤ m := vdata_run_inv fs p m hvid hrun
          have hcount : countPng (applyOps fs (FsOp.mkdirOp
              (unique_dir fs (p.dropLast ++ [(splitext (p.getLastD "")).1]))
            :: (List.range m).map fun i => FsOp.write
              (unique_dir fs (p.dropLast ++ [(splitext (p.getLastD "")).1]) ++ [frameName i])
              Content.blob))
              (unique_dir fs (p.dropLast ++ [(splitext (p.getLastD "")).1])) = m :=
            staged_count fs _ _ m hWF hfree hne
          subst hkval
          refine ⟨by omega, ?_, ?_⟩
          · rw [← hdm]
            exact videoDelay_pos _ (videoFps_nonneg _) htz
          · rw [hq, List.dropLast_concat]
            show fc = countPng (applyOps fs ((anim_ops _ _ _ _ _).take _)) _
            rw [anim_take_meta, staged_count fs _ _ m hWF hfree hne]
            omega
  · rw [h] at hk
    exact absurd hk (static_no_meta fs p k q fc dm)

/-- Witness for C6: the metadata write of the 2-frame GIF conversion sits at
index 3 of the trace; the theorem applies with `frame_count = 2` and
`delay_ms = 100`. -/
theorem C6_witness :
    WF fsGif ∧
    (process_file envAll fsGif ["pl", "anim.gif"]).ops.get? 3
      = some (.write ["pl", "anim", "meta.txt"] (.metaRec 2 100)) ∧
    (0 : ℤ) < 100 :=
  ⟨by decide, rfl,
   (C6_meta_record envAll fsGif ["pl", "anim.gif"] 3 ["pl", "anim", "meta.txt"] 2 100
     (by decide) (by intro vd m2 hg; simp [fsGif, getAt] at hg) rfl).2.1⟩

end ConvertMedia
